import Mathlib

/-!
Verification of the OAuth 2.1 authorization/token subsystem and the session
coordinator of the google-task-calendar remote MCP server.

The definitions below are a shallow embedding of `src/auth/oauth.ts`
(class `OAuthServer`, the enhanced version with the `client_credentials`
grant) and `src/session/SessionManager.ts` (class `SessionManager`).
JavaScript `Map`s become association lists with JS `Map` semantics,
`Date.now()` becomes an explicit `now : Nat` parameter, values produced by
`crypto.randomBytes` become explicit `fresh*` parameters, and the external
SHA-256/base64url routine becomes an abstract `hash : String → String`
parameter.  Fallible endpoints return `Except` together with the updated
server state.
-/

namespace MCP

/-- Truthiness of an optional JS string field: `undefined` and the empty
string are falsy, every other string is truthy. -/
def truthy : Option String → Bool
  | none => false
  | some s => !(s == "")

/-- Lookup in a JS `Map` modelled as an association list (`Map.get`). -/
def mapGet [BEq κ] (m : List (κ × α)) (k : κ) : Option α :=
  (m.find? (fun p => p.1 == k)).map (fun p => p.2)

/-- Update or insert in a JS `Map` (`Map.set`): an existing key keeps its
position, a new key is appended. -/
def mapSet [BEq κ] (m : List (κ × α)) (k : κ) (v : α) : List (κ × α) :=
  if (m.find? (fun p => p.1 == k)).isSome then
    m.map (fun p => if p.1 == k then (k, v) else p)
  else
    m ++ [(k, v)]

/-- Deletion from a JS `Map` (`Map.delete`). -/
def mapDelete [BEq κ] (m : List (κ × α)) (k : κ) : List (κ × α) :=
  m.filter (fun p => !(p.1 == k))

/-- Prefix test on character lists (used to embed JS substring search). -/
def startsWithL : List Char → List Char → Bool
  | _, [] => true
  | [], _ :: _ => false
  | a :: s, b :: t => a == b && startsWithL s t

/-- Substring test on character lists, embedding `String.prototype.includes`
for a non-empty pattern: scan left to right for a match. -/
def containsSub : List Char → List Char → Bool
  | [], sub => startsWithL [] sub
  | s@(_ :: rest), sub => startsWithL s sub || containsSub rest sub

/-- Replacement of the first (leftmost) occurrence of a pattern, embedding
`String.prototype.replace` with a string pattern. -/
def replaceFirstL : List Char → List Char → List Char → List Char
  | [], _, _ => []
  | s@(c :: rest), pat, repl =>
    if startsWithL s pat then repl ++ s.drop pat.length
    else c :: replaceFirstL rest pat repl

/-- JS `s.includes(sub)` on strings. -/
def jsIncludes (s sub : String) : Bool :=
  containsSub s.data sub.data

/-- JS `s.replace(pat, repl)` on strings (first occurrence only). -/
def jsReplaceFirst (s pat repl : String) : String :=
  String.mk (replaceFirstL s.data pat.data repl.data)

/-- Accumulator pass for `jsSplit`. -/
def jsSplitAux (sep : Char) : List Char → List Char → List String
  | [], acc => [String.mk acc.reverse]
  | c :: rest, acc =>
    if c == sep then String.mk acc.reverse :: jsSplitAux sep rest []
    else jsSplitAux sep rest (c :: acc)

/-- JS `s.split(sep)` for a single-character separator: splitting the empty
string yields `[""]`, and consecutive separators yield empty pieces. -/
def jsSplit (s : String) (sep : Char) : List String :=
  jsSplitAux sep s.data []

/-- Structured OAuth error kinds returned by the server. -/
inductive OAuthErr where
  | invalid_request
  | unsupported_response_type
  | unsupported_grant_type
  | invalid_client
  | invalid_redirect_uri
  | invalid_grant
  | invalid_token
  | insufficient_scope
  | server_error
  deriving DecidableEq, Repr

/-- Grant provenance of a token (`grant_type` field of a stored token). -/
inductive GrantType where
  | authorization_code
  | client_credentials
  deriving DecidableEq, Repr

/-- Registered client record (interface `OAuthClient`). -/
structure OAuthClient where
  client_id : String
  client_name : String
  redirect_uris : List String
  created_at : Nat
  deriving DecidableEq, Repr

/-- Value stored in the `authCodes` map of `OAuthServer`. -/
structure AuthCodeData where
  client_id : String
  redirect_uri : String
  code_challenge : String
  expires_at : Nat
  deriving DecidableEq, Repr

/-- Value stored in the `tokens` map of `OAuthServer` (enhanced fields). -/
structure TokenData where
  client_id : String
  expires_at : Nat
  scope : Option String
  token_type : String
  granted_at : Nat
  iat : Nat
  jti : String
  grant_type : GrantType
  sub : Option String
  aud : Option String
  refresh_count : Nat
  last_used : Nat
  deriving DecidableEq, Repr

/-- Mutable state of the `OAuthServer` singleton, together with the durable
client registry file `oauth_clients.json` written by `saveClients`. -/
structure OAuthState where
  clients : List (String × OAuthClient)
  authCodes : List (String × AuthCodeData)
  tokens : List (String × TokenData)
  durable : List (String × OAuthClient)
  deriving DecidableEq, Repr

/-- Body of a POST `/oauth/token` request; absent fields are `none`. -/
structure TokenReq where
  grant_type : Option String
  code : Option String
  redirect_uri : Option String
  client_id : Option String
  code_verifier : Option String
  deriving DecidableEq, Repr

/-- Successful JSON response of the token endpoint. -/
structure TokenSuccess where
  access_token : String
  token_type : String
  expires_in : Nat
  scope : String
  deriving DecidableEq, Repr

/-- Unreserved PKCE verifier characters, the character class of the regex
`/^[A-Za-z0-9._~-]+$/` in `OAuthServer.token`. -/
def isUnreservedChar (c : Char) : Bool :=
  ('A' ≤ c && c ≤ 'Z') || ('a' ≤ c && c ≤ 'z') || ('0' ≤ c && c ≤ '9') ||
    c == '.' || c == '_' || c == '~' || c == '-'

/-- Fixed default scope string minted by the `client_credentials` branch of
`OAuthServer.token`. -/
def ccMintedScope : String := "mcp tasks:read tasks:write calendar:read calendar:write"

/-- Fixed default scope string minted by the `authorization_code` branch of
`OAuthServer.token`. -/
def acMintedScope : String := "mcp tasks:read tasks:write calendar:read calendar:write"

/-- Embedding of `OAuthServer.token`.  `hash` abstracts
`crypto.createHash('sha256').update(v).digest('base64url')`; `freshTok` and
`freshJti` are the values of the two `crypto.randomBytes(...)` calls;
`issuer` is `config.oauthIssuer`; `now` is `Date.now()`. -/
def token (hash : String → String) (issuer freshTok freshJti : String) (now : Nat)
    (req : TokenReq) (st : OAuthState) : Except OAuthErr TokenSuccess × OAuthState :=
  if !truthy req.grant_type || !truthy req.client_id then
    (.error .invalid_request, st)
  else
    let gt := req.grant_type.getD ""
    let cid := req.client_id.getD ""
    if gt != "authorization_code" && gt != "client_credentials" then
      (.error .unsupported_grant_type, st)
    else if gt == "client_credentials" then
      match mapGet st.clients cid with
      | none => (.error .invalid_client, st)
      | some _ =>
        let td : TokenData :=
          ⟨cid, now + 60 * 60 * 1000, some ccMintedScope, "Bearer", now,
            now / 1000, freshJti, .client_credentials, some cid, some issuer, 0, now⟩
        (.ok ⟨freshTok, "Bearer", 3600, ccMintedScope⟩,
          { st with tokens := mapSet st.tokens freshTok td })
    else
      if !truthy req.code || !truthy req.redirect_uri || !truthy req.code_verifier then
        (.error .invalid_request, st)
      else
        let c := req.code.getD ""
        let ruri := req.redirect_uri.getD ""
        let v := req.code_verifier.getD ""
        match mapGet st.authCodes c with
        | none => (.error .invalid_grant, st)
        | some ac =>
          if ac.expires_at < now then
            (.error .invalid_grant, { st with authCodes := mapDelete st.authCodes c })
          else if ac.client_id != cid || ac.redirect_uri != ruri then
            (.error .invalid_grant, st)
          else if ac.code_challenge == "" then
            (.error .invalid_grant, st)
          else if v.length < 43 || v.length > 128 then
            (.error .invalid_request, st)
          else if !(v.data.all isUnreservedChar) then
            (.error .invalid_request, st)
          else if hash v != ac.code_challenge then
            (.error .invalid_grant, st)
          else
            let td : TokenData :=
              ⟨cid, now + 60 * 60 * 1000, some acMintedScope, "Bearer", now,
                now / 1000, freshJti, .authorization_code, some cid, some issuer, 0, now⟩
            (.ok ⟨freshTok, "Bearer", 3600, acMintedScope⟩,
              { st with tokens := mapSet st.tokens freshTok td,
                        authCodes := mapDelete st.authCodes c })

/-- Required-scope argument of `validateToken`, a JS `string | string[]`. -/
inductive ScopeReq where
  | one (s : String)
  | many (l : List String)
  deriving DecidableEq, Repr

/-- Truthiness of the optional `requiredScope` argument: `undefined` and the
empty string are falsy, any array (even empty) is truthy. -/
def truthyScopeReq : Option ScopeReq → Bool
  | none => false
  | some (.one s) => !(s == "")
  | some (.many _) => true

/-- Conversion `Array.isArray(requiredScope) ? requiredScope : [requiredScope]`. -/
def requiredScopesOf : ScopeReq → List String
  | .one s => [s]
  | .many l => l

/-- Result record of `OAuthServer.validateScopes`. -/
structure ScopeCheck where
  valid : Bool
  reason : Option String
  deriving DecidableEq, Repr

/-- Granted-scope list computed by `OAuthServer.validateScopes`:
`grantedScope.split(' ').filter(s => s.length > 0)`. -/
def grantedScopesOf (g : String) : List String :=
  (jsSplit g ' ').filter (fun s => s.length > 0)

/-- Per-scope loop of `OAuthServer.validateScopes`: each required scope must
be directly granted, or be a `:read` scope whose `:write` counterpart is
granted; the first failure ends the loop. -/
def scopeLoop (grantedScopes : List String) : List String → ScopeCheck
  | [] => ⟨true, none⟩
  | s :: rest =>
    let scopeGranted :=
      grantedScopes.contains s ||
        (jsIncludes s ":read" && grantedScopes.contains (jsReplaceFirst s ":read" ":write"))
    if scopeGranted then scopeLoop grantedScopes rest
    else ⟨false, some ("Missing required scope: " ++ s)⟩

/-- Embedding of the private method `OAuthServer.validateScopes`, the scope
check used by `validateToken`. -/
def validateScopes (grantedScope : Option String) (requiredScope : Option ScopeReq) :
    ScopeCheck :=
  if !truthyScopeReq requiredScope then ⟨true, none⟩
  else if !truthy grantedScope then ⟨false, some "No scopes granted"⟩
  else
    let grantedScopes := grantedScopesOf (grantedScope.getD "")
    if grantedScopes.contains "mcp" then ⟨true, none⟩
    else scopeLoop grantedScopes (requiredScopesOf ((requiredScope.getD (.many []))))

/-- Per-scope test of `OAuthServer.checkScopes` (direct match, universal
`mcp`, bare resource grant, and write-implies-read). -/
def checkScope1 (grantedScopes : List String) (required : String) : Bool :=
  if grantedScopes.contains required then true
  else if grantedScopes.contains "mcp" then true
  else
    let parts := jsSplit required ':'
    let resource := parts.getD 0 ""
    let action := parts.getD 1 ""
    if !(resource == "") && !(action == "") then
      if grantedScopes.contains resource then true
      else if action == "read" && grantedScopes.contains (resource ++ ":write") then true
      else false
    else false

/-- Embedding of `OAuthServer.checkScopes` (not used by `validateToken`). -/
def checkScopes (grantedScope : Option String) (requiredScopes : ScopeReq) : Bool :=
  if !truthy grantedScope then false
  else
    let grantedScopes := jsSplit (grantedScope.getD "") ' '
    (requiredScopesOf requiredScopes).all (fun r => checkScope1 grantedScopes r)

/-- Hexadecimal digit test for the token-shape regex `/^[a-f0-9]{64}$/i`. -/
def isHexChar (c : Char) : Bool :=
  ('0' ≤ c && c ≤ '9') || ('a' ≤ c && c ≤ 'f') || ('A' ≤ c && c ≤ 'F')

/-- Token-shape test of `validateToken`: a 64-character hex string. -/
def isHex64 (s : String) : Bool :=
  s.length == 64 && s.data.all isHexChar

/-- Outcome of `OAuthServer.validateToken`, keeping the fields the claims
are about (validity, error kind, client and granted scope). -/
inductive ValidateResult where
  | ok (client_id : String) (scope : Option String)
  | err (e : OAuthErr) (client_id : Option String)
  deriving DecidableEq, Repr

/-- Embedding of `OAuthServer.validateToken`.  The security-context check
of the source (`validateSecurityContext`) always reports valid and is
therefore behaviourally absent. -/
def validateToken (now : Nat) (tok : String) (requiredScope : Option ScopeReq)
    (st : OAuthState) : ValidateResult × OAuthState :=
  if tok == "" then (.err .invalid_token none, st)
  else if !isHex64 tok then (.err .invalid_token none, st)
  else
    match mapGet st.tokens tok with
    | none => (.err .invalid_token none, st)
    | some td =>
      if td.expires_at < now then
        (.err .invalid_token none, { st with tokens := mapDelete st.tokens tok })
      else
        let st' := { st with tokens := mapSet st.tokens tok { td with last_used := now } }
        if truthyScopeReq requiredScope then
          if !(validateScopes td.scope requiredScope).valid then
            (.err .insufficient_scope (some td.client_id), st')
          else (.ok td.client_id td.scope, st')
        else (.ok td.client_id td.scope, st')

/-- Embedding of `OAuthServer.revoke`: delete the presented token, sweep
expired authorization codes, and answer 200 regardless. -/
def revoke (now : Nat) (tokenParam : Option String) (st : OAuthState) :
    Except OAuthErr Unit × OAuthState :=
  if !truthy tokenParam then (.error .invalid_request, st)
  else
    let t := tokenParam.getD ""
    (.ok (),
      { st with tokens := mapDelete st.tokens t,
                authCodes := st.authCodes.filter (fun p => !(p.2.expires_at < now)) })

/-- Body of a POST `/oauth/register` request; `redirect_uris` is `none`
when the field is absent or fails `Array.isArray`. -/
structure RegisterReq where
  client_name : Option String
  redirect_uris : Option (List String)
  deriving DecidableEq, Repr

/-- Successful JSON response of the registration endpoint. -/
structure RegisterSuccess where
  client_id : String
  client_name : String
  redirect_uris : List String
  deriving DecidableEq, Repr

/-- First redirect URI rejected by the per-URI loop of `registerClient`,
with `uriOk` abstracting the `new URL` / scheme / hostname test. -/
def findBadUri (uriOk : String → Bool) : List String → Option String
  | [] => none
  | u :: rest => if uriOk u then findBadUri uriOk rest else some u

/-- Embedding of the private method `OAuthServer.saveClients`: attempt the
durable write; on failure (`writeOk = false`) the error is caught and only
logged, leaving the previous durable contents in place. -/
def saveClients (writeOk : Bool) (clients durable : List (String × OAuthClient)) :
    List (String × OAuthClient) :=
  if writeOk then clients else durable

/-- Embedding of `OAuthServer.registerClient`.  `freshId` is the value of
`crypto.randomBytes(16).toString('hex')`; `writeOk` is the outcome of the
awaited `saveClients` file write. -/
def registerClient (uriOk : String → Bool) (writeOk : Bool) (freshId : String) (now : Nat)
    (req : RegisterReq) (st : OAuthState) : Except OAuthErr RegisterSuccess × OAuthState :=
  if !truthy req.client_name then (.error .invalid_request, st)
  else
    match req.redirect_uris with
    | none => (.error .invalid_request, st)
    | some uris =>
      match findBadUri uriOk uris with
      | some _ => (.error .invalid_redirect_uri, st)
      | none =>
        let name := req.client_name.getD ""
        let client : OAuthClient := ⟨freshId, name, uris, now⟩
        let clients' := mapSet st.clients freshId client
        (.ok ⟨freshId, name, uris⟩,
          { st with clients := clients',
                    durable := saveClients writeOk clients' st.durable })

/-- Query parameters of a GET `/oauth/authorize` request. -/
structure AuthorizeReq where
  client_id : Option String
  response_type : Option String
  redirect_uri : Option String
  scope : Option String
  state : Option String
  code_challenge : Option String
  code_challenge_method : Option String
  deriving DecidableEq, Repr

/-- Outcome of the authorization endpoint: a redirect carrying the minted
code (and the state when truthy), or a structured error. -/
inductive AuthorizeResult where
  | redirect (uri code : String) (state : Option String)
  | err (e : OAuthErr)
  deriving DecidableEq, Repr

/-- Embedding of `OAuthServer.authorize`; `freshCode` is the value of
`crypto.randomBytes(16).toString('hex')`. -/
def authorize (freshCode : String) (now : Nat) (req : AuthorizeReq) (st : OAuthState) :
    AuthorizeResult × OAuthState :=
  if !truthy req.client_id || !truthy req.response_type || !truthy req.redirect_uri ||
      !truthy req.code_challenge || !truthy req.code_challenge_method then
    (.err .invalid_request, st)
  else if req.response_type.getD "" != "code" then
    (.err .unsupported_response_type, st)
  else if req.code_challenge_method.getD "" != "S256" then
    (.err .invalid_request, st)
  else
    match mapGet st.clients (req.client_id.getD "") with
    | none => (.err .invalid_client, st)
    | some client =>
      if !client.redirect_uris.contains (req.redirect_uri.getD "") then
        (.err .invalid_redirect_uri, st)
      else
        let ac : AuthCodeData :=
          ⟨req.client_id.getD "", req.redirect_uri.getD "", req.code_challenge.getD "",
            now + 10 * 60 * 1000⟩
        (.redirect (req.redirect_uri.getD "") freshCode
            (if truthy req.state then req.state else none),
          { st with authCodes := mapSet st.authCodes freshCode ac })

/-- Embedding of `SessionManager.addToHistory` on the `conversationHistory`
list of a session: push the entry, then trim to the newest 50 entries when
the length exceeds 100 (`slice(-50)`). -/
def addToHistory (h : List α) (e : α) : List α :=
  let h' := h ++ [e]
  if h'.length > 100 then h'.drop (h'.length - 50) else h'

/-- Session record as seen by `destroySession`: `ref` identifies the
`SessionState` object, `hasOnclose` records whether `transport.onclose` is
installed.  The transport built by `createSession` always installs an
`onclose` that calls `destroySession` for the same session id. -/
structure SessionObj where
  ref : Nat
  hasOnclose : Bool
  deriving DecidableEq, Repr

/-- Embedding of `SessionManager.destroySession` for a session whose
`onclose` hook re-enters `destroySession` on the same id (the hook
installed by `createSession`).  `fuel` is the remaining JS call-stack
budget: at `0` the call itself aborts with a stack-overflow exception
(`Except.error`), which the caller's `try`/`catch` around `onclose`
swallows.  The second component counts the `onclose` invocations made. -/
def destroySessionAux : Nat → String → List (String × SessionObj) →
    Except Unit (Bool × List (String × SessionObj)) × Nat
  | 0, _, _ => (.error (), 0)
  | fuel + 1, sid, m =>
    match mapGet m sid with
    | none => (.ok (false, m), 0)
    | some s =>
      if s.hasOnclose then
        match destroySessionAux fuel sid m with
        | (.ok (_, m2), k) => (.ok (true, mapDelete m2 sid), k + 1)
        | (.error _, k) => (.ok (true, mapDelete m sid), k + 1)
      else (.ok (true, mapDelete m sid), 0)

deriving instance DecidableEq for Except

/-- State shared by concurrent `getOrCreateSession` callers: the `sessions`
and `pendingSessions` maps of `SessionManager`, plus the settled promise
table.  Session objects are identified by the counter `nextRef` (one fresh
identity per `createSession` call that completes), promises by `nextProm`.
Since the body of `createSession` contains no `await`, every promise in
`promises` is already settled when it is installed. -/
structure CoordState where
  sessions : List (String × Nat)
  pending : List (String × Nat)
  promises : List (Nat × Except Unit Nat)
  nextRef : Nat
  nextProm : Nat
  maxSessions : Nat
  deriving DecidableEq, Repr

/-- Control point of one `getOrCreateSession` caller between the atomic
(synchronous, run-to-completion) blocks of the JS event loop. -/
inductive ReqState where
  | start
  | creatorWait (p : Nat)
  | observerWait (p : Nat)
  | done (r : Except Unit Nat)
  deriving DecidableEq, Repr

/-- One atomic block of `getOrCreateSession` for the caller in state `rs`
asking for session id `sid`.  From `start` the code runs synchronously up
to `await sessionPromise` (or returns/throws earlier); `creatorWait` resumes
after that await (delete the pending marker, publish the session, or on a
rejected creation delete the marker and rethrow); `observerWait` resumes
`await this.pendingSessions.get(sessionId)`.  `oracle p` tells whether the
creation attempt that mints promise `p` succeeds. -/
def stepReq (oracle : Nat → Bool) (sid : String) :
    ReqState → CoordState → ReqState × CoordState
  | .start, st =>
    match mapGet st.sessions sid with
    | some r => (.done (.ok r), st)
    | none =>
      match mapGet st.pending sid with
      | some p => (.observerWait p, st)
      | none =>
        if st.sessions.length ≥ st.maxSessions then (.done (.error ()), st)
        else
          let res : Except Unit Nat :=
            if oracle st.nextProm then .ok st.nextRef else .error ()
          (.creatorWait st.nextProm,
            { st with
              promises := mapSet st.promises st.nextProm res
              pending := mapSet st.pending sid st.nextProm
              nextProm := st.nextProm + 1
              nextRef := if oracle st.nextProm then st.nextRef + 1 else st.nextRef })
  | .creatorWait p, st =>
    match mapGet st.promises p with
    | some (.ok r) =>
      (.done (.ok r),
        { st with pending := mapDelete st.pending sid,
                  sessions := mapSet st.sessions sid r })
    | some (.error e) =>
      (.done (.error e), { st with pending := mapDelete st.pending sid })
    | none => (.done (.error ()), st)
  | .observerWait p, st =>
    match mapGet st.promises p with
    | some r => (.done r, st)
    | none => (.done (.error ()), st)
  | .done r, st => (.done r, st)

/-- Scheduler step: run the next atomic block of caller `i` (out-of-range
indices are no-ops). -/
def stepSys (oracle : Nat → Bool) (sid : String)
    (cfg : List ReqState × CoordState) (i : Nat) : List ReqState × CoordState :=
  match cfg.1[i]? with
  | none => cfg
  | some rs =>
    let rc := stepReq oracle sid rs cfg.2
    (cfg.1.set i rc.1, rc.2)

/-- Run a whole schedule of atomic blocks. -/
def runSched (oracle : Nat → Bool) (sid : String)
    (sched : List Nat) (cfg : List ReqState × CoordState) : List ReqState × CoordState :=
  sched.foldl (stepSys oracle sid) cfg

/-- Test for a finished caller. -/
def isDoneQ : ReqState → Bool
  | .done _ => true
  | _ => false

/-- Test for a caller holding the creation (pending-marker) role. -/
def isCreatorQ : ReqState → Bool
  | .creatorWait _ => true
  | _ => false

/-- Invariant of the session coordinator under concurrent first-touch
requests for `sid` when every creation attempt succeeds: before the first
creation, creation in flight with its settled promise installed, or after
publication — with every caller in a phase consistent with that. -/
def coordInvS (sid : String) (S0 : List (String × Nat)) (n0 p0 mx : Nat)
    (cfg : List ReqState × CoordState) : Prop :=
  cfg.2.maxSessions = mx ∧
  ((cfg.2.sessions = S0 ∧ cfg.2.pending = [] ∧ cfg.2.promises = [] ∧
      cfg.2.nextRef = n0 ∧ cfg.2.nextProm = p0 ∧ ∀ q ∈ cfg.1, q = ReqState.start) ∨
   (cfg.2.sessions = S0 ∧ cfg.2.pending = [(sid, p0)] ∧
      cfg.2.promises = [(p0, Except.ok n0)] ∧
      cfg.2.nextRef = n0 + 1 ∧ cfg.2.nextProm = p0 + 1 ∧
      (∃ j : Nat, cfg.1[j]? = some (ReqState.creatorWait p0)) ∧
      ∀ q ∈ cfg.1, q = ReqState.start ∨ q = ReqState.creatorWait p0 ∨
        q = ReqState.observerWait p0 ∨ q = ReqState.done (Except.ok n0)) ∨
   (cfg.2.sessions = mapSet S0 sid n0 ∧ cfg.2.pending = [] ∧
      cfg.2.promises = [(p0, Except.ok n0)] ∧
      cfg.2.nextRef = n0 + 1 ∧ cfg.2.nextProm = p0 + 1 ∧
      ∀ q ∈ cfg.1, q = ReqState.start ∨ q = ReqState.creatorWait p0 ∨
        q = ReqState.observerWait p0 ∨ q = ReqState.done (Except.ok n0)))

/-- Invariant of the session coordinator for `sid` when every creation
attempt fails: no session is ever created or published, every settled
promise is a rejection, and at most one caller — the current holder of the
pending marker — is in the creator role. -/
def coordInvF (sid : String) (S0 : List (String × Nat)) (n0 p0 mx : Nat)
    (cfg : List ReqState × CoordState) : Prop :=
  cfg.2.maxSessions = mx ∧
  cfg.2.sessions = S0 ∧ cfg.2.nextRef = n0 ∧ p0 ≤ cfg.2.nextProm ∧
  (∀ pr ∈ cfg.2.promises, pr.2 = Except.error () ∧ pr.1 < cfg.2.nextProm) ∧
  (∀ q ∈ cfg.1, q = ReqState.start ∨
    (∃ p, (q = ReqState.creatorWait p ∨ q = ReqState.observerWait p) ∧
      mapGet cfg.2.promises p = some (Except.error ())) ∨
    q = ReqState.done (Except.error ())) ∧
  ((cfg.2.pending = [] ∧ ∀ q ∈ cfg.1, isCreatorQ q = false) ∨
   (∃ (p j : Nat), cfg.2.pending = [(sid, p)] ∧
      mapGet cfg.2.promises p = some (Except.error ()) ∧
      cfg.1[j]? = some (ReqState.creatorWait p) ∧
      ∀ (k : Nat) q, ¬k = j → cfg.1[k]? = some q → isCreatorQ q = false))

/-- Scope-satisfaction relation exactly as the specification phrases it for
token validation: universal scope, direct membership, a `resource:read`
requirement covered by a granted `resource:write`, or a `resource:read` or
`resource:write` requirement covered by a bare `resource` grant. -/
def scopeClaimSatisfied (granted required : List String) : Prop :=
  "mcp" ∈ granted ∨
    ∀ r ∈ required,
      r ∈ granted ∨
      (∃ res, r = res ++ ":read" ∧ res ++ ":write" ∈ granted) ∨
      (∃ res act, (act = "read" ∨ act = "write") ∧ r = res ++ ":" ++ act ∧ res ∈ granted)

/-- Well-formed scope names: either colon-free, or `resource:action` with a
colon-free resource and action `read` or `write`. -/
def wfScope (r : String) : Prop :=
  (∀ ch ∈ r.data, ¬ch = ':') ∨
  ∃ res act, (∀ ch ∈ res.data, ¬ch = ':') ∧ (act = "read" ∨ act = "write") ∧
    r = res ++ ":" ++ act

section MapLemmas

variable {κ α : Type} [BEq κ] [LawfulBEq κ]

theorem mapDelete_cons_pos (a : κ × α) (t : List (κ × α)) (k : κ) (h : (a.1 == k) = true) :
    mapDelete (a :: t) k = mapDelete t k := by
  simp [mapDelete, List.filter_cons, h]

theorem mapDelete_cons_neg (a : κ × α) (t : List (κ × α)) (k : κ) (h : (a.1 == k) = false) :
    mapDelete (a :: t) k = a :: mapDelete t k := by
  simp [mapDelete, List.filter_cons, h]

theorem mapGet_cons_pos (a : κ × α) (t : List (κ × α)) (k : κ) (h : (a.1 == k) = true) :
    mapGet (a :: t) k = some a.2 := by
  simp only [mapGet, List.find?_cons, h]
  rfl

theorem mapGet_cons_neg (a : κ × α) (t : List (κ × α)) (k : κ) (h : (a.1 == k) = false) :
    mapGet (a :: t) k = mapGet t k := by
  simp only [mapGet, List.find?_cons, h]

theorem mapGet_mapDelete_self (m : List (κ × α)) (k : κ) :
    mapGet (mapDelete m k) k = none := by
  induction m with
  | nil => rfl
  | cons a t ih =>
    cases h : a.1 == k with
    | true => rw [mapDelete_cons_pos a t k h]; exact ih
    | false => rw [mapDelete_cons_neg a t k h, mapGet_cons_neg a _ k h]; exact ih

theorem mapGet_mapDelete_ne (m : List (κ × α)) (k k' : κ) (hk : ¬k' = k) :
    mapGet (mapDelete m k) k' = mapGet m k' := by
  induction m with
  | nil => rfl
  | cons a t ih =>
    cases h : a.1 == k with
    | true =>
      have h1 : (a.1 == k') = false :=
        beq_eq_false_iff_ne.mpr (fun h2 => hk (((eq_of_beq h) ▸ h2).symm ▸ rfl))
      rw [mapDelete_cons_pos a t k h, mapGet_cons_neg a t k' h1]
      exact ih
    | false =>
      cases h2 : a.1 == k' with
      | true =>
        rw [mapDelete_cons_neg a t k h, mapGet_cons_pos a _ k' h2, mapGet_cons_pos a t k' h2]
      | false =>
        rw [mapDelete_cons_neg a t k h, mapGet_cons_neg a _ k' h2, mapGet_cons_neg a t k' h2]
        exact ih

theorem mapGet_mapSet_self (m : List (κ × α)) (k : κ) (v : α) :
    mapGet (mapSet m k v) k = some v := by
  unfold mapSet
  cases hs : (m.find? (fun p => p.1 == k)).isSome with
  | true =>
    rw [if_pos rfl]
    obtain ⟨a, ha⟩ := Option.isSome_iff_exists.mp hs
    have hak : (a.1 == k) = true := by simpa using List.find?_some ha
    have hfun : ((fun (p : κ × α) => p.1 == k) ∘
        fun p => if p.1 == k then (k, v) else p) = fun (p : κ × α) => p.1 == k := by
      funext p
      cases hh : p.1 == k <;> simp [hh]
    unfold mapGet
    rw [List.find?_map, hfun, ha]
    simp [hak]
  | false =>
    rw [if_neg (by simp)]
    have hnone : m.find? (fun p => p.1 == k) = none :=
      Option.not_isSome_iff_eq_none.mp (by simp [hs])
    unfold mapGet
    rw [List.find?_append, hnone]
    simp only [List.find?_cons, beq_self_eq_true k]
    rfl

theorem mapGet_mapSet_ne (m : List (κ × α)) (k k' : κ) (v : α) (hk : ¬k' = k) :
    mapGet (mapSet m k v) k' = mapGet m k' := by
  have hkk : (k == k') = false := beq_eq_false_iff_ne.mpr (fun hh => hk hh.symm)
  unfold mapSet
  cases hs : (m.find? (fun p => p.1 == k)).isSome with
  | true =>
    rw [if_pos rfl]
    have hfun : ((fun (p : κ × α) => p.1 == k') ∘
        fun p => if p.1 == k then (k, v) else p) = fun (p : κ × α) => p.1 == k' := by
      funext p
      cases hh : p.1 == k with
      | true =>
        have h1 : (p.1 == k') = false :=
          beq_eq_false_iff_ne.mpr (by rw [eq_of_beq hh]; exact fun h2 => hk h2.symm)
        simp [hh, h1, hkk]
      | false => simp [hh]
    unfold mapGet
    rw [List.find?_map, hfun]
    cases hf : m.find? (fun p => p.1 == k') with
    | none => rfl
    | some a =>
      have hak : (a.1 == k') = true := by simpa using List.find?_some hf
      have h1 : (a.1 == k) = false :=
        beq_eq_false_iff_ne.mpr (by rw [eq_of_beq hak]; exact fun h2 => hk h2)
      simp [h1]
  | false =>
    rw [if_neg (by simp)]
    unfold mapGet
    rw [List.find?_append]
    simp only [List.find?_cons, hkk, List.find?_nil, Option.or_none]

theorem mapGet_nil (k : κ) : mapGet ([] : List (κ × α)) k = none := rfl

theorem mapSet_nil (k : κ) (v : α) : mapSet ([] : List (κ × α)) k v = [(k, v)] := by
  simp [mapSet]

theorem mapDelete_single_self (k : κ) (v : α) : mapDelete [(k, v)] k = [] := by
  simp [mapDelete]

theorem mapGet_eq_none_of_no_key (m : List (κ × α)) (k : κ)
    (h : ∀ pr ∈ m, ¬pr.1 = k) : mapGet m k = none := by
  unfold mapGet
  rw [List.find?_eq_none.mpr (fun p hp => by simp [h p hp])]
  rfl

theorem mapSet_mapSet_same (m : List (κ × α)) (k : κ) (v : α) :
    mapSet (mapSet m k v) k v = mapSet m k v := by
  have hisSome : ((mapSet m k v).find? (fun p => p.1 == k)).isSome = true := by
    have hself := mapGet_mapSet_self m k v
    unfold mapGet at hself
    cases hf : (mapSet m k v).find? (fun p => p.1 == k) with
    | none => rw [hf] at hself; simp at hself
    | some a => rfl
  conv_lhs => rw [mapSet]
  rw [if_pos hisSome]
  by_cases hs : (m.find? (fun p => p.1 == k)).isSome = true
  · rw [mapSet, if_pos hs]
    rw [List.map_map]
    apply List.map_congr_left
    intro p _
    cases hh : p.1 == k with
    | true => simp [hh]
    | false => simp [hh]
  · rw [mapSet, if_neg hs]
    have hnone : m.find? (fun p => p.1 == k) = none := by
      cases hf : m.find? (fun p => p.1 == k) with
      | none => rfl
      | some a => exact absurd (by rw [hf]; rfl) hs
    have hkeys := List.find?_eq_none.mp hnone
    rw [List.map_append]
    have h1 : m.map (fun p => if p.1 == k then (k, v) else p) = m.map (fun p => p) := by
      apply List.map_congr_left
      intro p hp
      have hk := hkeys p hp
      simp only [Bool.not_eq_true] at hk
      simp [hk]
    rw [h1, List.map_id']
    simp

theorem mapGet_mem_key (m : List (κ × α)) (k : κ) (v : α) (h : mapGet m k = some v) :
    ∃ pr ∈ m, pr.1 = k := by
  unfold mapGet at h
  cases hf : m.find? (fun p => p.1 == k) with
  | none => rw [hf] at h; simp at h
  | some a =>
    have ha : a ∈ m := List.mem_of_find?_eq_some hf
    have hak : (a.1 == k) = true := by simpa using List.find?_some hf
    exact ⟨a, ha, eq_of_beq hak⟩

theorem mapSet_of_absent (m : List (κ × α)) (k : κ) (v : α) (h : mapGet m k = none) :
    mapSet m k v = m ++ [(k, v)] := by
  have hnone : m.find? (fun p => p.1 == k) = none := by
    cases hf : m.find? (fun p => p.1 == k) with
    | none => rfl
    | some a => rw [mapGet, hf] at h; simp at h
  simp [mapSet, hnone]

end MapLemmas

end MCP


namespace MCP

/-- Inversion helper: a well-formed `authorization_code` exchange whose code
is absent from the `authCodes` map is rejected as `invalid_grant`. -/
theorem token_code_missing
    (hash : String → String) (issuer freshTok freshJti : String) (now : Nat)
    (req : TokenReq) (st : OAuthState) (c : String)
    (hgt : req.grant_type = some "authorization_code")
    (hc : req.code = some c) (hcne : ¬c = "")
    (hcid : truthy req.client_id = true)
    (hruri : truthy req.redirect_uri = true)
    (hverif : truthy req.code_verifier = true)
    (habs : mapGet st.authCodes c = none) :
    (token hash issuer freshTok freshJti now req st).1 = .error .invalid_grant := by
  unfold token
  rw [hgt, hc]
  simp only [truthy, Option.getD_some] at hcid hruri hverif ⊢
  simp [hcid, hruri, hverif, hcne, habs]

/-- C1: authorization codes are single-use.  A successful
`authorization_code` exchange removes the presented code from the store,
and any further well-formed exchange attempt presenting the same code
value is rejected with `invalid_grant`. -/
theorem authCode_single_use
    (hash : String → String) (issuer freshTok freshJti : String) (now : Nat)
    (req : TokenReq) (st : OAuthState) (c : String) (s : TokenSuccess)
    (hgt : req.grant_type = some "authorization_code")
    (hc : req.code = some c)
    (hok : (token hash issuer freshTok freshJti now req st).1 = .ok s) :
    mapGet (token hash issuer freshTok freshJti now req st).2.authCodes c = none ∧
    ∀ (hash2 : String → String) (issuer2 freshTok2 freshJti2 : String) (now2 : Nat)
      (req2 : TokenReq),
      req2.grant_type = some "authorization_code" → req2.code = some c →
      truthy req2.client_id = true → truthy req2.redirect_uri = true →
      truthy req2.code_verifier = true →
      (token hash2 issuer2 freshTok2 freshJti2 now2 req2
          (token hash issuer freshTok freshJti now req st).2).1 =
        .error .invalid_grant := by
  unfold token at hok
  rw [hgt, hc] at hok
  simp only [truthy, Option.getD_some] at hok
  simp at hok
  split at hok
  next h1 => exact absurd hok (by simp)
  next h1 =>
  split at hok
  next h2 => exact absurd hok (by simp)
  next h2 =>
  split at hok
  next habsent => exact absurd hok (by simp)
  next ac hac =>
  split at hok
  next h4 => exact absurd hok (by simp)
  next h4 =>
  split at hok
  next h5 => exact absurd hok (by simp)
  next h5 =>
  split at hok
  next h6 => exact absurd hok (by simp)
  next h6 =>
  split at hok
  next h7 => exact absurd hok (by simp)
  next h7 =>
  split at hok
  next h8 => exact absurd hok (by simp)
  next h8 =>
  split at hok
  next h9 =>
    have habs : mapGet (token hash issuer freshTok freshJti now req st).2.authCodes c = none := by
      unfold token
      rw [hgt, hc]
      simp only [truthy, Option.getD_some]
      simp [h1, h2, hac, h4, h5, h6, h7, h8, h9, mapGet_mapDelete_self]
    refine ⟨habs, ?_⟩
    intro hash2 issuer2 freshTok2 freshJti2 now2 req2 hgt2 hc2 hcid2 hruri2 hv2
    have hcne : ¬c = "" := fun hce => h2 (Or.inl (Or.inl hce))
    exact token_code_missing hash2 issuer2 freshTok2 freshJti2 now2 req2 _ c
      hgt2 hc2 hcne hcid2 hruri2 hv2 habs
  next h9 => exact absurd hok (by simp)

/-- Witness for C1: a concrete successful exchange after which the code is
gone from the store. -/
theorem authCode_single_use_witness :
    mapGet (token (fun _ => "X") "i" "t" "j" 5
        ⟨some "authorization_code", some "code1", some "https://a/cb", some "cid1",
          some (String.mk (List.replicate 43 'a'))⟩
        ⟨[], [("code1", ⟨"cid1", "https://a/cb", "X", 1000⟩)], [], []⟩).2.authCodes
      "code1" = none :=
  (authCode_single_use (fun _ => "X") "i" "t" "j" 5
    ⟨some "authorization_code", some "code1", some "https://a/cb", some "cid1",
      some (String.mk (List.replicate 43 'a'))⟩
    ⟨[], [("code1", ⟨"cid1", "https://a/cb", "X", 1000⟩)], [], []⟩ "code1"
    ⟨"t", "Bearer", 3600, acMintedScope⟩ rfl rfl (by decide)).1

/-- C2: PKCE correctness.  For an unexpired, unconsumed code whose bound
client id and redirect URI match the request, and a well-formed verifier,
the exchange succeeds iff the hash of the presented verifier equals the
stored challenge, and any mismatch is rejected as `invalid_grant`. -/
theorem pkce_exchange_iff
    (hash : String → String) (issuer freshTok freshJti : String) (now : Nat)
    (st : OAuthState) (c cid ruri v : String) (ac : AuthCodeData)
    (hac : mapGet st.authCodes c = some ac)
    (hexp : ¬ac.expires_at < now)
    (hacid : ac.client_id = cid) (haruri : ac.redirect_uri = ruri)
    (hcne : ¬c = "") (hcidne : ¬cid = "") (hrurine : ¬ruri = "")
    (hlen1 : 43 ≤ v.length) (hlen2 : v.length ≤ 128)
    (hchars : v.data.all isUnreservedChar = true)
    (hhne : ¬hash v = "") :
    ((∃ s, (token hash issuer freshTok freshJti now
        ⟨some "authorization_code", some c, some ruri, some cid, some v⟩ st).1 = .ok s) ↔
      hash v = ac.code_challenge) ∧
    (¬hash v = ac.code_challenge →
      (token hash issuer freshTok freshJti now
        ⟨some "authorization_code", some c, some ruri, some cid, some v⟩ st).1 =
        .error .invalid_grant) := by
  have hvne : ¬v = "" := by
    intro he
    rw [he] at hlen1
    simp at hlen1
  have hlen : ¬(v.length < 43 ∨ 128 < v.length) := by omega
  have hnex : ¬∃ x ∈ v.data, isUnreservedChar x = false := by
    rw [List.all_eq_true] at hchars
    rintro ⟨x, hx, hfx⟩
    exact Bool.false_ne_true (hfx ▸ hchars x hx)
  by_cases hh : hash v = ac.code_challenge
  · have hchalne : ¬ac.code_challenge = "" := fun he => hhne (by rw [hh, he])
    have hr : (token hash issuer freshTok freshJti now
        ⟨some "authorization_code", some c, some ruri, some cid, some v⟩ st).1 =
        .ok ⟨freshTok, "Bearer", 3600, acMintedScope⟩ := by
      unfold token
      simp only [truthy, Option.getD_some]
      simp [hcne, hcidne, hrurine, hvne, hac, hexp, hacid, haruri, hchalne, hh, hlen, hnex]
    exact ⟨⟨fun _ => hh, fun _ => ⟨_, hr⟩⟩, fun hcon => absurd hh hcon⟩
  · have hr : (token hash issuer freshTok freshJti now
        ⟨some "authorization_code", some c, some ruri, some cid, some v⟩ st).1 =
        .error .invalid_grant := by
      by_cases hchal : ac.code_challenge = ""
      · unfold token
        simp only [truthy, Option.getD_some]
        simp [hcne, hcidne, hrurine, hvne, hac, hexp, hacid, haruri, hchal]
      · unfold token
        simp only [truthy, Option.getD_some]
        simp [hcne, hcidne, hrurine, hvne, hac, hexp, hacid, haruri, hchal, hh, hlen, hnex]
    refine ⟨⟨?_, fun hcon => absurd hcon hh⟩, fun _ => hr⟩
    rintro ⟨s, hs⟩
    rw [hr] at hs
    simp at hs

/-- Witness for C2, at a concrete matching and a concrete mismatching
challenge. -/
theorem pkce_exchange_iff_witness :
    (∃ s, (token (fun _ => "X") "i" "t" "j" 5
        ⟨some "authorization_code", some "code1", some "https://a/cb", some "cid1",
          some (String.mk (List.replicate 43 'a'))⟩
        ⟨[], [("code1", ⟨"cid1", "https://a/cb", "X", 1000⟩)], [], []⟩).1 = .ok s) ↔
      (fun (_ : String) => "X") (String.mk (List.replicate 43 'a')) = "X" :=
  (pkce_exchange_iff (fun _ => "X") "i" "t" "j" 5
    ⟨[], [("code1", ⟨"cid1", "https://a/cb", "X", 1000⟩)], [], []⟩
    "code1" "cid1" "https://a/cb" (String.mk (List.replicate 43 'a'))
    ⟨"cid1", "https://a/cb", "X", 1000⟩
    (by decide) (by decide) rfl rfl (by decide) (by decide) (by decide)
    (by decide) (by decide) (by decide) (by decide)).1

/-- C5: lazy expiry at use-time.  An expired authorization code presented
to the token exchange yields `invalid_grant` and is deleted from the code
store; an expired token presented to validation yields `invalid_token` and
is deleted (evicted) from the token store. -/
theorem lazy_expiry :
    (∀ (hash : String → String) (issuer freshTok freshJti : String) (now : Nat)
      (st : OAuthState) (c cid ruri v : String) (ac : AuthCodeData),
      mapGet st.authCodes c = some ac → ac.expires_at < now →
      ¬c = "" → ¬cid = "" → ¬ruri = "" → ¬v = "" →
      (token hash issuer freshTok freshJti now
          ⟨some "authorization_code", some c, some ruri, some cid, some v⟩ st).1 =
        .error .invalid_grant ∧
      mapGet (token hash issuer freshTok freshJti now
          ⟨some "authorization_code", some c, some ruri, some cid, some v⟩ st).2.authCodes
        c = none) ∧
    (∀ (now : Nat) (t : String) (rs : Option ScopeReq) (st : OAuthState) (td : TokenData),
      isHex64 t = true → mapGet st.tokens t = some td → td.expires_at < now →
      (validateToken now t rs st).1 = .err .invalid_token none ∧
      mapGet (validateToken now t rs st).2.tokens t = none) := by
  constructor
  · intro hash issuer freshTok freshJti now st c cid ruri v ac hac hexp hcne hcidne hrurine hvne
    constructor
    · unfold token
      simp only [truthy, Option.getD_some]
      simp [hcne, hcidne, hrurine, hvne, hac, hexp]
    · unfold token
      simp only [truthy, Option.getD_some]
      simp [hcne, hcidne, hrurine, hvne, hac, hexp, mapGet_mapDelete_self]
  · intro now t rs st td hhex htd hexp
    have htne : ¬t = "" := by
      intro he
      rw [he] at hhex
      exact absurd hhex (by decide)
    have htne2 : (t == "") = false := beq_eq_false_iff_ne.mpr htne
    constructor
    · unfold validateToken
      simp [htne2, hhex, htd, hexp]
    · unfold validateToken
      simp [htne2, hhex, htd, hexp, mapGet_mapDelete_self]

/-- Witness for C5: a concrete expired code and a concrete expired token. -/
theorem lazy_expiry_witness :
    (token (fun _ => "X") "i" "t" "j" 2000
        ⟨some "authorization_code", some "code1", some "u", some "cid", some "v"⟩
        ⟨[], [("code1", ⟨"cid", "u", "X", 1000⟩)], [], []⟩).1 = .error .invalid_grant ∧
    (validateToken 99 (String.mk (List.replicate 64 'a')) none
        ⟨[], [], [(String.mk (List.replicate 64 'a'),
          ⟨"cid", 50, none, "Bearer", 0, 0, "j", .authorization_code, none, none, 0, 0⟩)],
          []⟩).1 = .err .invalid_token none :=
  ⟨(lazy_expiry.1 (fun _ => "X") "i" "t" "j" 2000
      ⟨[], [("code1", ⟨"cid", "u", "X", 1000⟩)], [], []⟩ "code1" "cid" "u" "v"
      ⟨"cid", "u", "X", 1000⟩ (by decide) (by decide) (by decide) (by decide)
      (by decide) (by decide)).1,
    (lazy_expiry.2 99 (String.mk (List.replicate 64 'a')) none
      ⟨[], [], [(String.mk (List.replicate 64 'a'),
        ⟨"cid", 50, none, "Bearer", 0, 0, "j", .authorization_code, none, none, 0, 0⟩)],
        []⟩
      ⟨"cid", 50, none, "Bearer", 0, 0, "j", .authorization_code, none, none, 0, 0⟩
      (by decide) (by decide) (by decide)).1⟩

/-- C6: revocation is idempotent and immediate.  Revoking any presented
token value reports success; afterwards the token is absent from the token
store and every subsequent validation of it fails with `invalid_token`. -/
theorem revoke_idempotent_immediate :
    ∀ (now : Nat) (t : String) (st : OAuthState), ¬t = "" →
      (revoke now (some t) st).1 = .ok () ∧
      mapGet (revoke now (some t) st).2.tokens t = none ∧
      ∀ (now2 : Nat) (rs : Option ScopeReq),
        (validateToken now2 t rs (revoke now (some t) st).2).1 =
          .err .invalid_token none := by
  intro now t st htne
  have htne2 : (t == "") = false := beq_eq_false_iff_ne.mpr htne
  refine ⟨?_, ?_, ?_⟩
  · unfold revoke
    simp [truthy, htne]
  · unfold revoke
    simp [truthy, htne, mapGet_mapDelete_self]
  · intro now2 rs
    unfold revoke validateToken
    cases hhex : isHex64 t with
    | false => simp [truthy, htne, htne2, hhex]
    | true => simp [truthy, htne, htne2, hhex, mapGet_mapDelete_self]

/-- Witness for C6: revoking a concrete live token and a concrete unknown
token. -/
theorem revoke_idempotent_immediate_witness :
    (revoke 0 (some (String.mk (List.replicate 64 'a')))
        ⟨[], [], [(String.mk (List.replicate 64 'a'),
          ⟨"cid", 10 ^ 9, none, "Bearer", 0, 0, "j", .authorization_code, none, none, 0, 0⟩)],
          []⟩).1 = .ok () ∧
    (revoke 0 (some "ghost") ⟨[], [], [], []⟩).1 = .ok () :=
  ⟨(revoke_idempotent_immediate 0 (String.mk (List.replicate 64 'a'))
      ⟨[], [], [(String.mk (List.replicate 64 'a'),
        ⟨"cid", 10 ^ 9, none, "Bearer", 0, 0, "j", .authorization_code, none, none, 0, 0⟩)],
        []⟩ (by decide)).1,
    (revoke_idempotent_immediate 0 "ghost" ⟨[], [], [], []⟩ (by decide)).1⟩

/-- C8: the `client_credentials` grant resolves only the client id — an
unknown client is rejected as `invalid_client` with no state change, a
known client is minted a token immediately (whatever the `code`,
`redirect_uri` and `code_verifier` fields hold) carrying
`grant_type = client_credentials` and the same fixed default scope string
that every successful `authorization_code` exchange returns. -/
theorem client_credentials_grant
    (hash : String → String) (issuer freshTok freshJti : String) (now : Nat)
    (cid : String) (code ruri v : Option String) (st : OAuthState)
    (hcidne : ¬cid = "") :
    (mapGet st.clients cid = none →
      (token hash issuer freshTok freshJti now
          ⟨some "client_credentials", code, ruri, some cid, v⟩ st).1 =
        .error .invalid_client ∧
      (token hash issuer freshTok freshJti now
          ⟨some "client_credentials", code, ruri, some cid, v⟩ st).2 = st) ∧
    (∀ cl, mapGet st.clients cid = some cl →
      (token hash issuer freshTok freshJti now
          ⟨some "client_credentials", code, ruri, some cid, v⟩ st).1 =
        .ok ⟨freshTok, "Bearer", 3600, ccMintedScope⟩ ∧
      mapGet (token hash issuer freshTok freshJti now
          ⟨some "client_credentials", code, ruri, some cid, v⟩ st).2.tokens freshTok =
        some ⟨cid, now + 60 * 60 * 1000, some ccMintedScope, "Bearer", now, now / 1000,
          freshJti, .client_credentials, some cid, some issuer, 0, now⟩) ∧
    (∀ (hash2 : String → String) (issuer2 freshTok2 freshJti2 : String) (now2 : Nat)
      (req2 : TokenReq) (st2 : OAuthState) (s2 : TokenSuccess),
      req2.grant_type = some "authorization_code" →
      (token hash2 issuer2 freshTok2 freshJti2 now2 req2 st2).1 = .ok s2 →
      s2.scope = ccMintedScope) := by
  refine ⟨?_, ?_, ?_⟩
  · intro habs
    constructor <;>
      (unfold token
       simp only [truthy, Option.getD_some]
       simp [hcidne, habs])
  · intro cl hcl
    constructor
    · unfold token
      simp only [truthy, Option.getD_some]
      simp [hcidne, hcl]
    · unfold token
      simp only [truthy, Option.getD_some]
      simp [hcidne, hcl, mapGet_mapSet_self]
  · intro hash2 issuer2 freshTok2 freshJti2 now2 req2 st2 s2 hgt2 hok
    unfold token at hok
    rw [hgt2] at hok
    simp only [truthy, Option.getD_some] at hok
    simp at hok
    repeat' split at hok
    all_goals simp at hok
    all_goals subst hok
    all_goals rfl

/-- Witness for C8: a concrete unknown client is rejected, a concrete
registered client is minted a `client_credentials` token. -/
theorem client_credentials_grant_witness :
    (token (fun _ => "X") "i" "t" "j" 7
        ⟨some "client_credentials", none, none, some "cid1", none⟩
        ⟨[], [], [], []⟩).1 = .error .invalid_client ∧
    (token (fun _ => "X") "i" "t" "j" 7
        ⟨some "client_credentials", none, none, some "cid1", none⟩
        ⟨[("cid1", ⟨"cid1", "T", ["https://a/cb"], 0⟩)], [], [], []⟩).1 =
      .ok ⟨"t", "Bearer", 3600, ccMintedScope⟩ :=
  ⟨((client_credentials_grant (fun _ => "X") "i" "t" "j" 7 "cid1" none none none
      ⟨[], [], [], []⟩ (by decide)).1 (by decide)).1,
    ((client_credentials_grant (fun _ => "X") "i" "t" "j" 7 "cid1" none none none
      ⟨[("cid1", ⟨"cid1", "T", ["https://a/cb"], 0⟩)], [], [], []⟩ (by decide)).2.1
      ⟨"cid1", "T", ["https://a/cb"], 0⟩ (by decide)).1⟩

/-- Helper: when every redirect URI passes the check, the per-URI loop of
`registerClient` finds nothing to reject. -/
theorem findBadUri_none (uriOk : String → Bool) (l : List String)
    (h : ∀ u ∈ l, uriOk u = true) : findBadUri uriOk l = none := by
  induction l with
  | nil => rfl
  | cons u rest ih =>
    rw [findBadUri, if_pos (h u (by simp))]
    exact ih (fun x hx => h x (by simp [hx]))

/-- Counterexample for C4: with a failing durable write, a valid
registration still reports success to the caller (the write error is
swallowed and only logged inside `saveClients`), and the new client is
absent from the durable registry. -/
theorem registration_write_failure_counterexample :
    (registerClient (fun _ => true) false "cid1" 0
        ⟨some "T", some ["https://a.example/cb"]⟩ ⟨[], [], [], []⟩).1 =
      .ok ⟨"cid1", "T", ["https://a.example/cb"]⟩ ∧
    mapGet (registerClient (fun _ => true) false "cid1" 0
        ⟨some "T", some ["https://a.example/cb"]⟩ ⟨[], [], [], []⟩).2.durable
      "cid1" = none := by
  decide

/-- C4 (amended): the registration endpoint awaits the persistence attempt
before responding; a successful write leaves the durable registry equal to
the updated client map, but a failed write is swallowed — the call still
returns success and the durable registry is unchanged. -/
theorem registration_persistence
    (uriOk : String → Bool) (writeOk : Bool) (freshId : String) (now : Nat)
    (name : String) (uris : List String) (st : OAuthState)
    (hname : ¬name = "") (huris : ∀ u ∈ uris, uriOk u = true) :
    (registerClient uriOk writeOk freshId now ⟨some name, some uris⟩ st).1 =
      .ok ⟨freshId, name, uris⟩ ∧
    (writeOk = true →
      (registerClient uriOk writeOk freshId now ⟨some name, some uris⟩ st).2.durable =
        mapSet st.clients freshId ⟨freshId, name, uris, now⟩) ∧
    (writeOk = false →
      (registerClient uriOk writeOk freshId now ⟨some name, some uris⟩ st).2.durable =
        st.durable) := by
  have hbad := findBadUri_none uriOk uris huris
  refine ⟨?_, ?_, ?_⟩
  · unfold registerClient
    simp [truthy, hname, hbad]
  · intro hw
    unfold registerClient
    simp [truthy, hname, hbad, saveClients, hw]
  · intro hw
    unfold registerClient
    simp [truthy, hname, hbad, saveClients, hw]

/-- Witness for C4 (amended): a concrete registration with a succeeding
write lands in the durable registry. -/
theorem registration_persistence_witness :
    (registerClient (fun _ => true) true "cid1" 0
        ⟨some "T", some ["https://a.example/cb"]⟩ ⟨[], [], [], []⟩).1 =
      .ok ⟨"cid1", "T", ["https://a.example/cb"]⟩ :=
  (registration_persistence (fun _ => true) true "cid1" 0 "T" ["https://a.example/cb"]
    ⟨[], [], [], []⟩ (by decide) (by decide)).1

/-- C9: bounded session history.  After every `addToHistory` the history
holds at most 100 entries; when the pushed entry makes it exceed 100 it is
trimmed to exactly the newest 50 in order (a suffix of the pushed list),
and otherwise it is exactly the pushed list. -/
theorem addToHistory_bounded {α : Type} (h : List α) (e : α) :
    (addToHistory h e).length ≤ 100 ∧
    ((h ++ [e]).length > 100 →
      (addToHistory h e).length = 50 ∧
      addToHistory h e = (h ++ [e]).drop ((h ++ [e]).length - 50)) ∧
    ((h ++ [e]).length ≤ 100 → addToHistory h e = h ++ [e]) ∧
    addToHistory h e <:+ h ++ [e] := by
  unfold addToHistory
  by_cases hlen : (h ++ [e]).length > 100
  · refine ⟨?_, fun _ => ⟨?_, ?_⟩, fun hle => absurd hlen (by omega), ?_⟩
    · simp only [if_pos hlen, List.length_drop]
      omega
    · simp only [if_pos hlen, List.length_drop]
      omega
    · simp only [if_pos hlen]
    · simp only [if_pos hlen]
      exact List.drop_suffix _ _
  · refine ⟨?_, fun hgt => absurd hgt hlen, fun _ => ?_, ?_⟩
    · simp only [if_neg hlen]
      omega
    · simp only [if_neg hlen]
    · simp only [if_neg hlen]
      exact List.suffix_refl _

/-- Witness for C9: pushing the 101st entry trims the history to the
newest 50. -/
theorem addToHistory_bounded_witness :
    (addToHistory (List.replicate 100 (0 : Nat)) 1).length = 50 ∧
    addToHistory (List.replicate 100 (0 : Nat)) 1 =
      (List.replicate 100 (0 : Nat) ++ [1]).drop
        ((List.replicate 100 (0 : Nat) ++ [1]).length - 50) :=
  (addToHistory_bounded (List.replicate 100 (0 : Nat)) 1).2.1 (by decide)

/-- Unfolding step for `destroySessionAux` at a present session with the
re-entrant hook. -/
theorem destroySessionAux_succ (fuel : Nat) (sid : String)
    (m : List (String × SessionObj)) (s : SessionObj)
    (hs : mapGet m sid = some s) (ho : s.hasOnclose = true) :
    destroySessionAux (fuel + 1) sid m =
      (match destroySessionAux fuel sid m with
        | (.ok (_, m2), k) => (.ok (true, mapDelete m2 sid), k + 1)
        | (.error _, k) => (.ok (true, mapDelete m sid), k + 1)) := by
  simp only [destroySessionAux, hs, ho, if_true]

/-- C10 (code bug): for a session whose transport carries the `onclose`
hook installed by `createSession` (which re-enters `destroySession` on the
same id before the map entry is deleted), `destroySession` invokes the
hook once per available stack frame — `fuel + 1` times for a stack budget
of `fuel + 1` — instead of at most once, stopping only when the stack is
exhausted and the resulting exception is swallowed by the surrounding
`try`/`catch`.  The session is nevertheless absent from the map at the
end. -/
theorem destroySession_onclose_unbounded
    (fuel : Nat) (sid : String) (m : List (String × SessionObj)) (s : SessionObj)
    (hs : mapGet m sid = some s) (ho : s.hasOnclose = true) :
    (destroySessionAux (fuel + 1) sid m).2 = fuel + 1 ∧
    ∃ m2, (destroySessionAux (fuel + 1) sid m).1 = .ok (true, m2) ∧
      mapGet m2 sid = none := by
  induction fuel with
  | zero =>
    rw [destroySessionAux_succ 0 sid m s hs ho]
    exact ⟨rfl, mapDelete m sid, rfl, mapGet_mapDelete_self m sid⟩
  | succ n ih =>
    obtain ⟨hcount, m2, hres, _⟩ := ih
    have hpair : destroySessionAux (n + 1) sid m = (.ok (true, m2), n + 1) := by
      rcases hp : destroySessionAux (n + 1) sid m with ⟨a, b⟩
      rw [hp] at hres hcount
      simp only at hres hcount
      rw [hres, hcount]
    rw [destroySessionAux_succ (n + 1) sid m s hs ho, hpair]
    exact ⟨rfl, mapDelete m2 sid, rfl, mapGet_mapDelete_self m2 sid⟩

/-- Witness for C10: with stack budget 2 the hook fires twice at a
concrete single-session map. -/
theorem destroySession_onclose_unbounded_witness :
    (destroySessionAux 2 "s" [("s", ⟨0, true⟩)]).2 = 2 ∧ ¬(2 : Nat) ≤ 1 :=
  ⟨(destroySession_onclose_unbounded 1 "s" [("s", ⟨0, true⟩)] ⟨0, true⟩
      (by decide) rfl).1, by decide⟩

/-- A list extending a pattern on the right starts with that pattern. -/
theorem startsWithL_append (p t : List Char) : startsWithL (p ++ t) p = true := by
  induction p with
  | nil => cases t <;> rfl
  | cons c rest ih => simp [startsWithL, ih]

/-- A pattern occurs in any list that ends with it. -/
theorem containsSub_append_self (l pat : List Char) : containsSub (l ++ pat) pat = true := by
  induction l with
  | nil =>
    cases pat with
    | nil => rfl
    | cons c p =>
      show containsSub (c :: p) (c :: p) = true
      have h := startsWithL_append (c :: p) []
      rw [List.append_nil] at h
      simp [containsSub, h]
  | cons c rest ih => simp [containsSub, ih]

/-- A pattern starting with a colon cannot occur in a colon-free list. -/
theorem containsSub_no_colon (l p : List Char) (hl : ∀ ch ∈ l, ¬ch = ':') :
    containsSub l (':' :: p) = false := by
  induction l with
  | nil => rfl
  | cons c rest ih =>
    have hc : (c == ':') = false := beq_eq_false_iff_ne.mpr (hl c (by simp))
    simp [containsSub, startsWithL, hc]
    exact ih (fun ch hch => hl ch (by simp [hch]))

/-- A colon-headed pattern is absent from `l ++ ':' :: tail` when `l` and
`tail` are colon-free and the pattern does not match at the boundary. -/
theorem containsSub_boundary (l tail p : List Char)
    (hl : ∀ ch ∈ l, ¬ch = ':') (htail : ∀ ch ∈ tail, ¬ch = ':')
    (hns : startsWithL (':' :: tail) (':' :: p) = false) :
    containsSub (l ++ ':' :: tail) (':' :: p) = false := by
  induction l with
  | nil =>
    simp [containsSub, hns]
    exact containsSub_no_colon tail p htail
  | cons c rest ih =>
    have hc : (c == ':') = false := beq_eq_false_iff_ne.mpr (hl c (by simp))
    simp [containsSub, startsWithL, hc]
    exact ih (fun ch hch => hl ch (by simp [hch]))

/-- Replacing the first occurrence of a colon-headed pattern that sits
right after a colon-free block replaces exactly that occurrence. -/
theorem replaceFirstL_boundary (l p repl : List Char) (hl : ∀ ch ∈ l, ¬ch = ':') :
    replaceFirstL (l ++ ':' :: p) (':' :: p) repl = l ++ repl := by
  induction l with
  | nil =>
    show replaceFirstL (':' :: p) (':' :: p) repl = [] ++ repl
    have h := startsWithL_append (':' :: p) []
    rw [List.append_nil] at h
    simp [replaceFirstL, h]
  | cons c rest ih =>
    have hc : (c == ':') = false := beq_eq_false_iff_ne.mpr (hl c (by simp))
    simp [replaceFirstL, startsWithL, hc]
    exact ih (fun ch hch => hl ch (by simp [hch]))

/-- For a well-formed required scope, the per-scope test of
`validateScopes` coincides with the specification reading restricted to
direct membership and write-implies-read. -/
theorem scopeCheck_equiv (G : List String) (r : String) (hwf : wfScope r) :
    (r ∈ G ∨ (jsIncludes r ":read" = true ∧ jsReplaceFirst r ":read" ":write" ∈ G)) ↔
    (r ∈ G ∨ ∃ res, r = res ++ ":read" ∧ (res ++ ":write") ∈ G) := by
  have e1 : (":read" : String).data = ':' :: ("read" : String).data := by decide
  have e3 : (":write" : String).data = ':' :: ("write" : String).data := by decide
  rcases hwf with hfree | ⟨res, act, hresfree, hact, hr⟩
  · have hinc : jsIncludes r ":read" = false := by
      show containsSub r.data (":read" : String).data = false
      rw [e1]
      exact containsSub_no_colon r.data _ hfree
    constructor
    · rintro (h | ⟨hi, _⟩)
      · exact Or.inl h
      · rw [hinc] at hi
        exact absurd hi (by decide)
    · rintro (h | ⟨res, hres, _⟩)
      · exact Or.inl h
      · exfalso
        have hmem : ':' ∈ r.data := by
          rw [hres, String.data_append, e1]
          exact List.mem_append_right _ (by simp)
        exact hfree ':' hmem rfl
  · rcases hact with hread | hwrite
    · subst hread
      have hr2 : r = res ++ ":read" := by
        rw [hr]
        apply String.ext
        simp only [String.data_append]
        rw [List.append_assoc]
        congr 1
      have hrep : jsReplaceFirst r ":read" ":write" = res ++ ":write" := by
        apply String.ext
        show replaceFirstL r.data (":read" : String).data (":write" : String).data =
          (res ++ ":write").data
        rw [hr2, String.data_append, String.data_append, e1]
        exact replaceFirstL_boundary res.data _ _ hresfree
      have hinc : jsIncludes r ":read" = true := by
        show containsSub r.data (":read" : String).data = true
        rw [hr2, String.data_append]
        exact containsSub_append_self res.data _
      constructor
      · rintro (h | ⟨_, hm⟩)
        · exact Or.inl h
        · exact Or.inr ⟨res, hr2, hrep ▸ hm⟩
      · rintro (h | ⟨res2, hres2, hm2⟩)
        · exact Or.inl h
        · refine Or.inr ⟨hinc, ?_⟩
          have hre : res2 = res := by
            have hd : res2.data ++ (":read" : String).data =
                res.data ++ (":read" : String).data := by
              rw [← String.data_append, ← String.data_append, ← hres2, ← hr2]
            exact String.ext (List.append_cancel_right hd)
          rw [hrep, ← hre]
          exact hm2
    · subst hwrite
      have hr2 : r = res ++ ":write" := by
        rw [hr]
        apply String.ext
        simp only [String.data_append]
        rw [List.append_assoc]
        congr 1
      have hinc : jsIncludes r ":read" = false := by
        show containsSub r.data (":read" : String).data = false
        rw [hr2, String.data_append, e1, e3]
        exact containsSub_boundary res.data _ _ hresfree (by decide) (by decide)
      have hnex : ∀ res2 : String, ¬r = res2 ++ ":read" := by
        intro res2 he
        have hd : res2.data ++ (":read" : String).data =
            res.data ++ (":write" : String).data := by
          rw [← String.data_append, ← String.data_append, ← he, ← hr2]
        have e1x : (":read" : String).data = [':', 'r', 'e', 'a', 'd'] := by decide
        have e3x : (":write" : String).data = [':', 'w', 'r', 'i', 't', 'e'] := by decide
        rw [e1x, e3x] at hd
        have hrev := congrArg List.reverse hd
        simp [List.reverse_append] at hrev
      constructor
      · rintro (h | ⟨hi, _⟩)
        · exact Or.inl h
        · rw [hinc] at hi
          exact absurd hi (by decide)
      · rintro (h | ⟨res2, hres2, _⟩)
        · exact Or.inl h
        · exact absurd hres2 (hnex res2)

/-- Declarative reading of the `validateScopes` per-scope loop. -/
theorem scopeLoop_valid_iff (G : List String) (l : List String) :
    (scopeLoop G l).valid = true ↔
      ∀ r ∈ l, (G.contains r ||
        (jsIncludes r ":read" && G.contains (jsReplaceFirst r ":read" ":write"))) = true := by
  induction l with
  | nil => simp [scopeLoop]
  | cons s rest ih =>
    cases hg : (G.contains s ||
        (jsIncludes s ":read" && G.contains (jsReplaceFirst s ":read" ":write"))) with
    | true =>
      have hstep : scopeLoop G (s :: rest) = scopeLoop G rest := by
        rw [scopeLoop]
        simp only [hg]
        simp
      rw [hstep, List.forall_mem_cons]
      exact ⟨fun h => ⟨hg, ih.mp h⟩, fun h => ih.mpr h.2⟩
    | false =>
      have hstep : scopeLoop G (s :: rest) =
          ⟨false, some ("Missing required scope: " ++ s)⟩ := by
        rw [scopeLoop]
        simp only [hg]
        simp
      rw [hstep, List.forall_mem_cons]
      constructor
      · intro h
        simp at h
      · rintro ⟨h1, -⟩
        rw [hg] at h1
        exact absurd h1 (by decide)

/-- Boolean-to-propositional reading of the per-scope test. -/
theorem scopeCond_iff (G : List String) (r : String) :
    (G.contains r ||
      (jsIncludes r ":read" && G.contains (jsReplaceFirst r ":read" ":write"))) = true ↔
    (r ∈ G ∨ (jsIncludes r ":read" = true ∧ jsReplaceFirst r ":read" ":write" ∈ G)) := by
  simp [List.contains, Bool.or_eq_true, Bool.and_eq_true]

/-- C3 (amended): the scope check actually enforced by token validation
(`validateScopes`) succeeds iff the grant contains the universal `mcp`
scope, or every required scope is directly present or is a
`resource:read` requirement covered by a granted `resource:write`; a bare
`resource` grant does not satisfy its `resource:read` or `resource:write`
requirements here (that rule exists only in the separate `checkScopes`
helper, which token validation does not call).  When the check fails on a
live token the validation result is `insufficient_scope`, distinct from
`invalid_token`. -/
theorem validateScopes_amended :
    (∀ (g : String) (required : List String), ¬g = "" →
      (∀ r ∈ required, wfScope r) →
      ((validateScopes (some g) (some (.many required))).valid = true ↔
        ("mcp" ∈ grantedScopesOf g ∨
          ∀ r ∈ required, r ∈ grantedScopesOf g ∨
            ∃ res, r = res ++ ":read" ∧ (res ++ ":write") ∈ grantedScopesOf g))) ∧
    (∀ (now : Nat) (t : String) (rs : Option ScopeReq) (st : OAuthState) (td : TokenData),
      isHex64 t = true → mapGet st.tokens t = some td → ¬td.expires_at < now →
      (validateScopes td.scope rs).valid = false →
      (validateToken now t rs st).1 = .err .insufficient_scope (some td.client_id)) := by
  constructor
  · intro g required hg hwf
    have hgb : (g == "") = false := beq_eq_false_iff_ne.mpr hg
    unfold validateScopes
    simp only [truthyScopeReq, truthy, hgb, requiredScopesOf, Option.getD_some,
      Bool.not_true, Bool.not_false, Bool.false_eq_true, if_false]
    cases hmcp : (grantedScopesOf g).contains "mcp" with
    | true =>
      have hmem : "mcp" ∈ grantedScopesOf g := by
        have h2 := hmcp
        simp [List.contains] at h2
        exact h2
      simp [hmcp, hmem]
    | false =>
      have hmem : "mcp" ∉ grantedScopesOf g := by
        intro hm
        have h2 : (grantedScopesOf g).contains "mcp" = true := by
          simp [List.contains, hm]
        rw [hmcp] at h2
        exact absurd h2 (by decide)
      simp only [hmcp, Bool.false_eq_true, if_false]
      rw [scopeLoop_valid_iff]
      constructor
      · intro hall
        refine Or.inr (fun r hr => ?_)
        exact (scopeCheck_equiv (grantedScopesOf g) r (hwf r hr)).mp
          ((scopeCond_iff (grantedScopesOf g) r).mp (hall r hr))
      · rintro (hm | hall)
        · exact absurd hm hmem
        · intro r hr
          exact (scopeCond_iff (grantedScopesOf g) r).mpr
            ((scopeCheck_equiv (grantedScopesOf g) r (hwf r hr)).mpr (hall r hr))
  · intro now t rs st td hhex htd hexp hsc
    have htne : ¬t = "" := by
      intro he
      rw [he] at hhex
      exact absurd hhex (by decide)
    have htne2 : (t == "") = false := beq_eq_false_iff_ne.mpr htne
    have hrs : truthyScopeReq rs = true := by
      cases rs with
      | none => rw [validateScopes] at hsc; simp [truthyScopeReq] at hsc
      | some r =>
        cases r with
        | one s =>
          cases hse : s == "" with
          | true =>
            rw [validateScopes] at hsc
            simp [truthyScopeReq, hse] at hsc
          | false => simp [truthyScopeReq, hse]
        | many l => simp [truthyScopeReq]
    unfold validateToken
    simp [htne2, hhex, htd, hexp, hrs, hsc]

/-- Counterexample for C3: the claim's bare-resource-grant clause holds of
granted set `tasks` and requirement `tasks:read`, yet the scope check used
by token validation rejects it, and a live token granted only `tasks`
fails validation for `tasks:read` with `insufficient_scope`. -/
theorem scope_bare_grant_counterexample :
    scopeClaimSatisfied ["tasks"] ["tasks:read"] ∧
    (validateScopes (some "tasks") (some (.many ["tasks:read"]))).valid = false ∧
    checkScopes (some "tasks") (.many ["tasks:read"]) = true ∧
    (validateToken 5 (String.mk (List.replicate 64 'a')) (some (.many ["tasks:read"]))
        ⟨[], [], [(String.mk (List.replicate 64 'a'),
          ⟨"cid", 1000, some "tasks", "Bearer", 0, 0, "j", .client_credentials,
            none, none, 0, 0⟩)], []⟩).1 =
      .err .insufficient_scope (some "cid") := by
  refine ⟨Or.inr ?_, by decide, by decide, by decide⟩
  intro r hr
  simp at hr
  subst hr
  exact Or.inr (Or.inr ⟨"tasks", "read", Or.inl rfl, by decide, by decide⟩)

/-- Witness for C3 (amended): concrete checks that `tasks:write` covers
`tasks:read` while `calendar:read` does not cover `calendar:write`. -/
theorem validateScopes_amended_witness :
    ((validateScopes (some "tasks:write") (some (.many ["tasks:read"]))).valid = true ↔
      ("mcp" ∈ grantedScopesOf "tasks:write" ∨
        ∀ r ∈ ["tasks:read"], r ∈ grantedScopesOf "tasks:write" ∨
          ∃ res, r = res ++ ":read" ∧ (res ++ ":write") ∈ grantedScopesOf "tasks:write")) ∧
    (validateScopes (some "tasks:write") (some (.many ["tasks:read"]))).valid = true ∧
    (validateScopes (some "calendar:read") (some (.many ["calendar:write"]))).valid = false :=
  ⟨validateScopes_amended.1 "tasks:write" ["tasks:read"] (by decide)
      (by
        intro r hr
        simp at hr
        subst hr
        exact Or.inr ⟨"tasks", "read", by decide, Or.inl rfl, by decide⟩),
    by decide, by decide⟩


/-- One scheduler step preserves the success-case coordinator invariant. -/
theorem coordInvS_step (oracle : Nat → Bool) (sid : String)
    (S0 : List (String × Nat)) (n0 p0 mx : Nat)
    (hor : ∀ k, oracle k = true)
    (hsid : mapGet S0 sid = none) (hlen : S0.length < mx)
    (reqs : List ReqState) (st : CoordState) (i : Nat)
    (hinv : coordInvS sid S0 n0 p0 mx (reqs, st)) :
    coordInvS sid S0 n0 p0 mx (stepSys oracle sid (reqs, st) i) := by
  obtain ⟨hmx, hph⟩ := hinv
  simp only at hmx hph
  simp only [stepSys]
  cases hi : reqs[i]? with
  | none => exact ⟨hmx, hph⟩
  | some rs =>
    obtain ⟨hilt, -⟩ := List.getElem?_eq_some_iff.mp hi
    have hmem : rs ∈ reqs := List.mem_iff_getElem?.mpr ⟨i, hi⟩
    have hpsing : mapGet [(sid, p0)] sid = some p0 :=
      mapGet_cons_pos (sid, p0) [] sid (beq_self_eq_true sid)
    have hprsing : mapGet [(p0, (Except.ok n0 : Except Unit Nat))] p0 =
        some (Except.ok n0) :=
      mapGet_cons_pos (p0, Except.ok n0) [] p0 (beq_self_eq_true p0)
    dsimp only
    rcases hph with ⟨hs, hp, hpr, hnr, hnp, hall⟩ |
      ⟨hs, hp, hpr, hnr, hnp, ⟨j, hj⟩, hall⟩ | ⟨hs, hp, hpr, hnr, hnp, hall⟩
    · have hrs : rs = .start := hall rs hmem
      subst hrs
      have hge : ¬(S0.length ≥ mx) := by omega
      have hstep : stepReq oracle sid .start st =
          (.creatorWait p0,
            { st with
              promises := [(p0, Except.ok n0)]
              pending := [(sid, p0)]
              nextProm := p0 + 1
              nextRef := n0 + 1 }) := by
        simp only [stepReq, hs, hsid, hp, mapGet_nil, hmx, hnp, hnr, hpr, hor p0]
        simp [hge, mapSet_nil]
      rw [hstep]
      refine ⟨hmx, Or.inr (Or.inl ⟨hs, rfl, rfl, rfl, rfl, ⟨i, ?_⟩, ?_⟩)⟩
      · rw [List.getElem?_set_self hilt]
      · intro q hq
        rcases List.mem_or_eq_of_mem_set hq with hq2 | hq2
        · exact Or.inl (hall q hq2)
        · exact Or.inr (Or.inl hq2)
    · rcases hall rs hmem with hrs | hrs | hrs | hrs <;> subst hrs
      · have hstep : stepReq oracle sid .start st = (.observerWait p0, st) := by
          simp only [stepReq, hs, hsid, hp, hpsing]
        rw [hstep]
        refine ⟨hmx, Or.inr (Or.inl ⟨hs, hp, hpr, hnr, hnp, ⟨j, ?_⟩, ?_⟩)⟩
        · have hij : ¬i = j := by
            intro he
            rw [← he, hi] at hj
            simp at hj
          rw [List.getElem?_set_ne hij]
          exact hj
        · intro q hq
          rcases List.mem_or_eq_of_mem_set hq with hq2 | hq2
          · exact hall q hq2
          · exact hq2 ▸ Or.inr (Or.inr (Or.inl rfl))
      · have hpp : mapGet st.promises p0 = some (Except.ok n0) := by
          rw [hpr]; exact hprsing
        have hstep : stepReq oracle sid (.creatorWait p0) st =
            (.done (.ok n0),
              { st with pending := [], sessions := mapSet S0 sid n0 }) := by
          simp only [stepReq, hpp, hp, hs, mapDelete_single_self]
        rw [hstep]
        refine ⟨hmx, Or.inr (Or.inr ⟨rfl, rfl, hpr, hnr, hnp, ?_⟩)⟩
        intro q hq
        rcases List.mem_or_eq_of_mem_set hq with hq2 | hq2
        · exact hall q hq2
        · exact hq2 ▸ Or.inr (Or.inr (Or.inr rfl))
      · have hpp : mapGet st.promises p0 = some (Except.ok n0) := by
          rw [hpr]; exact hprsing
        have hstep : stepReq oracle sid (.observerWait p0) st =
            (.done (.ok n0), st) := by
          simp only [stepReq, hpp]
        rw [hstep]
        refine ⟨hmx, Or.inr (Or.inl ⟨hs, hp, hpr, hnr, hnp, ⟨j, ?_⟩, ?_⟩)⟩
        · have hij : ¬i = j := by
            intro he
            rw [← he, hi] at hj
            simp at hj
          rw [List.getElem?_set_ne hij]
          exact hj
        · intro q hq
          rcases List.mem_or_eq_of_mem_set hq with hq2 | hq2
          · exact hall q hq2
          · exact hq2 ▸ Or.inr (Or.inr (Or.inr rfl))
      · have hstep : stepReq oracle sid (.done (.ok n0)) st =
            (.done (.ok n0), st) := rfl
        rw [hstep]
        refine ⟨hmx, Or.inr (Or.inl ⟨hs, hp, hpr, hnr, hnp, ⟨j, ?_⟩, ?_⟩)⟩
        · have hij : ¬i = j := by
            intro he
            rw [← he, hi] at hj
            simp at hj
          rw [List.getElem?_set_ne hij]
          exact hj
        · intro q hq
          rcases List.mem_or_eq_of_mem_set hq with hq2 | hq2
          · exact hall q hq2
          · exact hq2 ▸ Or.inr (Or.inr (Or.inr rfl))
    · rcases hall rs hmem with hrs | hrs | hrs | hrs <;> subst hrs
      · have hstep : stepReq oracle sid .start st = (.done (.ok n0), st) := by
          simp only [stepReq, hs, mapGet_mapSet_self]
        rw [hstep]
        refine ⟨hmx, Or.inr (Or.inr ⟨hs, hp, hpr, hnr, hnp, ?_⟩)⟩
        intro q hq
        rcases List.mem_or_eq_of_mem_set hq with hq2 | hq2
        · exact hall q hq2
        · exact hq2 ▸ Or.inr (Or.inr (Or.inr rfl))
      · have hpp : mapGet st.promises p0 = some (Except.ok n0) := by
          rw [hpr]; exact hprsing
        have hstep : stepReq oracle sid (.creatorWait p0) st =
            (.done (.ok n0), { st with pending := [], sessions := mapSet S0 sid n0 }) := by
          simp only [stepReq, hpp, hp, hs, mapSet_mapSet_same]
          simp [mapDelete]
        rw [hstep]
        refine ⟨hmx, Or.inr (Or.inr ⟨rfl, rfl, hpr, hnr, hnp, ?_⟩)⟩
        intro q hq
        rcases List.mem_or_eq_of_mem_set hq with hq2 | hq2
        · exact hall q hq2
        · exact hq2 ▸ Or.inr (Or.inr (Or.inr rfl))
      · have hpp : mapGet st.promises p0 = some (Except.ok n0) := by
          rw [hpr]; exact hprsing
        have hstep : stepReq oracle sid (.observerWait p0) st =
            (.done (.ok n0), st) := by
          simp only [stepReq, hpp]
        rw [hstep]
        refine ⟨hmx, Or.inr (Or.inr ⟨hs, hp, hpr, hnr, hnp, ?_⟩)⟩
        intro q hq
        rcases List.mem_or_eq_of_mem_set hq with hq2 | hq2
        · exact hall q hq2
        · exact hq2 ▸ Or.inr (Or.inr (Or.inr rfl))
      · have hstep : stepReq oracle sid (.done (.ok n0)) st =
            (.done (.ok n0), st) := rfl
        rw [hstep]
        refine ⟨hmx, Or.inr (Or.inr ⟨hs, hp, hpr, hnr, hnp, ?_⟩)⟩
        intro q hq
        rcases List.mem_or_eq_of_mem_set hq with hq2 | hq2
        · exact hall q hq2
        · exact hq2 ▸ Or.inr (Or.inr (Or.inr rfl))

/-- One scheduler step preserves the failure-case coordinator invariant. -/
theorem coordInvF_step (oracle : Nat → Bool) (sid : String)
    (S0 : List (String × Nat)) (n0 p0 mx : Nat)
    (hor : ∀ k, oracle k = false)
    (hsid : mapGet S0 sid = none) (hlen : S0.length < mx)
    (reqs : List ReqState) (st : CoordState) (i : Nat)
    (hinv : coordInvF sid S0 n0 p0 mx (reqs, st)) :
    coordInvF sid S0 n0 p0 mx (stepSys oracle sid (reqs, st) i) := by
  obtain ⟨hmx, hs, hnr, hple, hprb, hall, hph⟩ := hinv
  simp only at hmx hs hnr hple hprb hall hph
  simp only [stepSys]
  cases hi : reqs[i]? with
  | none => exact ⟨hmx, hs, hnr, hple, hprb, hall, hph⟩
  | some rs =>
    obtain ⟨hilt, -⟩ := List.getElem?_eq_some_iff.mp hi
    have hmem : rs ∈ reqs := List.mem_iff_getElem?.mpr ⟨i, hi⟩
    dsimp only
    rcases hph with ⟨hpe, hnc⟩ | ⟨p, j, hpe, hperr, hj, huni⟩
    · rcases hall rs hmem with hrs | ⟨p', hcls, hp'err⟩ | hrs
      · subst hrs
        have hge : ¬(S0.length ≥ mx) := by omega
        have hstep : stepReq oracle sid .start st =
            (.creatorWait st.nextProm,
              { st with
                promises := mapSet st.promises st.nextProm (Except.error ())
                pending := [(sid, st.nextProm)]
                nextProm := st.nextProm + 1
                nextRef := st.nextRef }) := by
          simp only [stepReq, hs, hsid, hpe, mapGet_nil, hmx, hor st.nextProm]
          simp [hge, mapSet_nil]
        rw [hstep]
        have hget : mapGet (mapSet st.promises st.nextProm (Except.error ())) st.nextProm =
            some (Except.error ()) := mapGet_mapSet_self _ _ _
        have hpres : ∀ (q : Nat) (v : Except Unit Nat), mapGet st.promises q = some v →
            mapGet (mapSet st.promises st.nextProm (Except.error ())) q = some v := by
          intro q v hv
          obtain ⟨pr, hprm, hprk⟩ := mapGet_mem_key st.promises q v hv
          have hlt : q < st.nextProm := hprk ▸ (hprb pr hprm).2
          rw [mapGet_mapSet_ne _ _ _ _ (by omega)]
          exact hv
        have hbound : ∀ pr ∈ mapSet st.promises st.nextProm (Except.error ()),
            pr.2 = Except.error () ∧ pr.1 < st.nextProm + 1 := by
          intro pr hpr
          have habs : mapGet st.promises st.nextProm = none :=
            mapGet_eq_none_of_no_key _ _ (fun q hq => by
              have := (hprb q hq).2
              omega)
          rw [mapSet_of_absent _ _ _ habs] at hpr
          rcases List.mem_append.mp hpr with h2 | h2
          · exact ⟨(hprb pr h2).1, by have := (hprb pr h2).2; omega⟩
          · simp only [List.mem_singleton] at h2
            rw [h2]
            exact ⟨rfl, Nat.lt_succ_self _⟩
        refine ⟨hmx, hs, hnr, (by omega : p0 ≤ st.nextProm + 1), hbound, ?_,
          Or.inr ⟨st.nextProm, i, rfl, hget, ?_, ?_⟩⟩
        · intro q hq
          rcases List.mem_or_eq_of_mem_set hq with hq2 | hq2
          · rcases hall q hq2 with h3 | ⟨p2, hcls2, herr2⟩ | h3
            · exact Or.inl h3
            · exact Or.inr (Or.inl ⟨p2, hcls2, hpres p2 _ herr2⟩)
            · exact Or.inr (Or.inr h3)
          · exact Or.inr (Or.inl ⟨st.nextProm, Or.inl hq2, hget⟩)
        · rw [List.getElem?_set_self hilt]
        · intro k q hk hkq
          rw [List.getElem?_set_ne (fun he => hk he.symm)] at hkq
          exact hnc q (List.mem_iff_getElem?.mpr ⟨k, hkq⟩)
      · rcases hcls with hcr | hob
        · subst hcr
          exact absurd (hnc _ hmem) (by simp [isCreatorQ])
        · subst hob
          have hstep : stepReq oracle sid (.observerWait p') st =
              (.done (.error ()), st) := by
            simp only [stepReq, hp'err]
          rw [hstep]
          refine ⟨hmx, hs, hnr, hple, hprb, ?_, Or.inl ⟨hpe, ?_⟩⟩
          · intro q hq
            rcases List.mem_or_eq_of_mem_set hq with hq2 | hq2
            · exact hall q hq2
            · exact Or.inr (Or.inr hq2)
          · intro q hq
            rcases List.mem_or_eq_of_mem_set hq with hq2 | hq2
            · exact hnc q hq2
            · rw [hq2]; rfl
      · subst hrs
        have hstep : stepReq oracle sid (.done (.error ())) st =
            (.done (.error ()), st) := rfl
        rw [hstep]
        refine ⟨hmx, hs, hnr, hple, hprb, ?_, Or.inl ⟨hpe, ?_⟩⟩
        · intro q hq
          rcases List.mem_or_eq_of_mem_set hq with hq2 | hq2
          · exact hall q hq2
          · exact Or.inr (Or.inr hq2)
        · intro q hq
          rcases List.mem_or_eq_of_mem_set hq with hq2 | hq2
          · exact hnc q hq2
          · rw [hq2]; rfl
    · rcases hall rs hmem with hrs | ⟨p', hcls, hp'err⟩ | hrs
      · subst hrs
        have hpsing : mapGet [(sid, p)] sid = some p :=
          mapGet_cons_pos (sid, p) [] sid (beq_self_eq_true sid)
        have hstep : stepReq oracle sid .start st = (.observerWait p, st) := by
          simp only [stepReq, hs, hsid, hpe, hpsing]
        rw [hstep]
        refine ⟨hmx, hs, hnr, hple, hprb, ?_, Or.inr ⟨p, j, hpe, hperr, ?_, ?_⟩⟩
        · intro q hq
          rcases List.mem_or_eq_of_mem_set hq with hq2 | hq2
          · exact hall q hq2
          · exact Or.inr (Or.inl ⟨p, Or.inr hq2, hperr⟩)
        · have hij : ¬i = j := by
            intro he
            rw [← he, hi] at hj
            simp at hj
          rw [List.getElem?_set_ne hij]
          exact hj
        · intro k q hk hkq
          by_cases hki : k = i
          · subst hki
            rw [List.getElem?_set_self hilt] at hkq
            cases hkq
            rfl
          · rw [List.getElem?_set_ne (fun he => hki he.symm)] at hkq
            exact huni k q hk hkq
      · rcases hcls with hcr | hob
        · subst hcr
          have hij : i = j := by
            by_contra hne
            have h2 := huni i _ hne hi
            simp [isCreatorQ] at h2
          subst hij
          have hpp : p' = p := by
            rw [hi] at hj
            cases hj
            rfl
          subst hpp
          have hstep : stepReq oracle sid (.creatorWait p') st =
              (.done (.error ()), { st with pending := [] }) := by
            simp only [stepReq, hperr, hpe, mapDelete_single_self]
          rw [hstep]
          refine ⟨hmx, hs, hnr, hple, hprb, ?_, Or.inl ⟨rfl, ?_⟩⟩
          · intro q hq
            rcases List.mem_or_eq_of_mem_set hq with hq2 | hq2
            · exact hall q hq2
            · exact Or.inr (Or.inr hq2)
          · intro q hq
            obtain ⟨k, hkq⟩ := List.mem_iff_getElem?.mp hq
            by_cases hki : k = i
            · subst hki
              rw [List.getElem?_set_self hilt] at hkq
              cases hkq
              rfl
            · rw [List.getElem?_set_ne (fun he => hki he.symm)] at hkq
              exact huni k q hki hkq
        · subst hob
          have hstep : stepReq oracle sid (.observerWait p') st =
              (.done (.error ()), st) := by
            simp only [stepReq, hp'err]
          rw [hstep]
          refine ⟨hmx, hs, hnr, hple, hprb, ?_, Or.inr ⟨p, j, hpe, hperr, ?_, ?_⟩⟩
          · intro q hq
            rcases List.mem_or_eq_of_mem_set hq with hq2 | hq2
            · exact hall q hq2
            · exact Or.inr (Or.inr hq2)
          · have hij : ¬i = j := by
              intro he
              rw [← he, hi] at hj
              simp at hj
            rw [List.getElem?_set_ne hij]
            exact hj
          · intro k q hk hkq
            by_cases hki : k = i
            · subst hki
              rw [List.getElem?_set_self hilt] at hkq
              cases hkq
              rfl
            · rw [List.getElem?_set_ne (fun he => hki he.symm)] at hkq
              exact huni k q hk hkq
      · subst hrs
        have hstep : stepReq oracle sid (.done (.error ())) st =
            (.done (.error ()), st) := rfl
        rw [hstep]
        refine ⟨hmx, hs, hnr, hple, hprb, ?_, Or.inr ⟨p, j, hpe, hperr, ?_, ?_⟩⟩
        · intro q hq
          rcases List.mem_or_eq_of_mem_set hq with hq2 | hq2
          · exact hall q hq2
          · exact Or.inr (Or.inr hq2)
        · have hij : ¬i = j := by
            intro he
            rw [← he, hi] at hj
            simp at hj
          rw [List.getElem?_set_ne hij]
          exact hj
        · intro k q hk hkq
          by_cases hki : k = i
          · subst hki
            rw [List.getElem?_set_self hilt] at hkq
            cases hkq
            rfl
          · rw [List.getElem?_set_ne (fun he => hki he.symm)] at hkq
            exact huni k q hk hkq

/-- A scheduler step never changes the number of callers. -/
theorem stepSys_length (oracle : Nat → Bool) (sid : String)
    (cfg : List ReqState × CoordState) (i : Nat) :
    (stepSys oracle sid cfg i).1.length = cfg.1.length := by
  simp only [stepSys]
  cases hi : cfg.1[i]? with
  | none => rfl
  | some rs => simp [List.length_set]

/-- A whole schedule never changes the number of callers. -/
theorem runSched_length (oracle : Nat → Bool) (sid : String) (sched : List Nat)
    (cfg : List ReqState × CoordState) :
    (runSched oracle sid sched cfg).1.length = cfg.1.length := by
  induction sched generalizing cfg with
  | nil => rfl
  | cons a rest ih =>
    show (runSched oracle sid rest (stepSys oracle sid cfg a)).1.length = cfg.1.length
    rw [ih, stepSys_length]

/-- The success-case invariant is preserved by whole schedules. -/
theorem coordInvS_run (oracle : Nat → Bool) (sid : String)
    (S0 : List (String × Nat)) (n0 p0 mx : Nat)
    (hor : ∀ k, oracle k = true) (hsid : mapGet S0 sid = none)
    (hlen : S0.length < mx) (sched : List Nat)
    (cfg : List ReqState × CoordState)
    (hinv : coordInvS sid S0 n0 p0 mx cfg) :
    coordInvS sid S0 n0 p0 mx (runSched oracle sid sched cfg) := by
  induction sched generalizing cfg with
  | nil => exact hinv
  | cons a rest ih =>
    show coordInvS sid S0 n0 p0 mx (runSched oracle sid rest (stepSys oracle sid cfg a))
    apply ih
    obtain ⟨reqs, st⟩ := cfg
    exact coordInvS_step oracle sid S0 n0 p0 mx hor hsid hlen reqs st a hinv

/-- The failure-case invariant is preserved by whole schedules. -/
theorem coordInvF_run (oracle : Nat → Bool) (sid : String)
    (S0 : List (String × Nat)) (n0 p0 mx : Nat)
    (hor : ∀ k, oracle k = false) (hsid : mapGet S0 sid = none)
    (hlen : S0.length < mx) (sched : List Nat)
    (cfg : List ReqState × CoordState)
    (hinv : coordInvF sid S0 n0 p0 mx cfg) :
    coordInvF sid S0 n0 p0 mx (runSched oracle sid sched cfg) := by
  induction sched generalizing cfg with
  | nil => exact hinv
  | cons a rest ih =>
    show coordInvF sid S0 n0 p0 mx (runSched oracle sid rest (stepSys oracle sid cfg a))
    apply ih
    obtain ⟨reqs, st⟩ := cfg
    exact coordInvF_step oracle sid S0 n0 p0 mx hor hsid hlen reqs st a hinv

/-- C7: single-flight session creation.  For any number of concurrent
first-touch callers of `getOrCreateSession` on a fresh session id and any
interleaving of their atomic blocks that runs all of them to completion:
when creation succeeds, exactly one session object is created
(`nextRef` advances by one), it is published in the session map, and every
caller receives that identical object; when creation fails, no session is
ever created or published, the pending marker is removed, and every caller
— the creator and all waiters alike — receives the error. -/
theorem session_single_flight :
    (∀ (oracle : Nat → Bool) (sid : String) (N : Nat) (st0 : CoordState)
      (sched : List Nat),
      (∀ k, oracle k = true) →
      mapGet st0.sessions sid = none → st0.pending = [] → st0.promises = [] →
      st0.sessions.length < st0.maxSessions → 0 < N →
      (∀ q ∈ (runSched oracle sid sched (List.replicate N ReqState.start, st0)).1,
        isDoneQ q = true) →
      ((∀ q ∈ (runSched oracle sid sched (List.replicate N ReqState.start, st0)).1,
          q = ReqState.done (.ok st0.nextRef)) ∧
        (runSched oracle sid sched (List.replicate N ReqState.start, st0)).2.nextRef =
          st0.nextRef + 1 ∧
        mapGet (runSched oracle sid sched
          (List.replicate N ReqState.start, st0)).2.sessions sid = some st0.nextRef)) ∧
    (∀ (oracle : Nat → Bool) (sid : String) (N : Nat) (st0 : CoordState)
      (sched : List Nat),
      (∀ k, oracle k = false) →
      mapGet st0.sessions sid = none → st0.pending = [] → st0.promises = [] →
      st0.sessions.length < st0.maxSessions →
      (∀ q ∈ (runSched oracle sid sched (List.replicate N ReqState.start, st0)).1,
        isDoneQ q = true) →
      ((∀ q ∈ (runSched oracle sid sched (List.replicate N ReqState.start, st0)).1,
          q = ReqState.done (.error ())) ∧
        (runSched oracle sid sched (List.replicate N ReqState.start, st0)).2.nextRef =
          st0.nextRef ∧
        mapGet (runSched oracle sid sched
          (List.replicate N ReqState.start, st0)).2.sessions sid = none ∧
        (runSched oracle sid sched (List.replicate N ReqState.start, st0)).2.pending =
          [])) := by
  constructor
  · intro oracle sid N st0 sched hor hsid hp0 hpr0 hlen hN hdone
    have hinv := coordInvS_run oracle sid st0.sessions st0.nextRef st0.nextProm
      st0.maxSessions hor hsid hlen sched (List.replicate N ReqState.start, st0)
      ⟨rfl, Or.inl ⟨rfl, hp0, hpr0, rfl, rfl,
        fun q hq => (List.mem_replicate.mp hq).2⟩⟩
    obtain ⟨hmx, hph⟩ := hinv
    have hlenrun : (runSched oracle sid sched
        (List.replicate N ReqState.start, st0)).1.length = N := by
      rw [runSched_length]
      simp
    rcases hph with ⟨hs, hp, hpr, hnr, hnp, hall⟩ |
      ⟨hs, hp, hpr, hnr, hnp, ⟨j, hj⟩, hall⟩ | ⟨hs, hp, hpr, hnr, hnp, hall⟩
    · exfalso
      obtain ⟨q, hq⟩ := List.exists_mem_of_length_pos (by rw [hlenrun]; exact hN)
      have h1 := hall q hq
      have h2 := hdone q hq
      rw [h1] at h2
      exact absurd h2 (by decide)
    · exfalso
      have hjm := List.mem_iff_getElem?.mpr ⟨j, hj⟩
      have h2 := hdone _ hjm
      exact absurd h2 (by simp [isDoneQ])
    · refine ⟨?_, hnr, by rw [hs]; exact mapGet_mapSet_self _ _ _⟩
      intro q hq
      rcases hall q hq with h1 | h1 | h1 | h1
      · rw [h1] at hq
        have h2 := hdone _ hq
        exact absurd h2 (by decide)
      · rw [h1] at hq
        have h2 := hdone _ hq
        exact absurd h2 (by simp [isDoneQ])
      · rw [h1] at hq
        have h2 := hdone _ hq
        exact absurd h2 (by simp [isDoneQ])
      · exact h1
  · intro oracle sid N st0 sched hor hsid hp0 hpr0 hlen hdone
    have hinv := coordInvF_run oracle sid st0.sessions st0.nextRef st0.nextProm
      st0.maxSessions hor hsid hlen sched (List.replicate N ReqState.start, st0)
      ⟨rfl, rfl, rfl, Nat.le_refl _,
        by rw [hpr0]; exact fun pr hpr => absurd hpr (by simp),
        fun q hq => Or.inl (List.mem_replicate.mp hq).2,
        Or.inl ⟨hp0, fun q hq => by rw [(List.mem_replicate.mp hq).2]; rfl⟩⟩
    obtain ⟨hmx, hs, hnr, hple, hprb, hall, hph⟩ := hinv
    have hdall : ∀ q ∈ (runSched oracle sid sched
        (List.replicate N ReqState.start, st0)).1, q = ReqState.done (.error ()) := by
      intro q hq
      rcases hall q hq with h1 | ⟨p, hcls, hperr⟩ | h1
      · rw [h1] at hq
        have h2 := hdone _ hq
        exact absurd h2 (by decide)
      · rcases hcls with h2 | h2 <;>
          (rw [h2] at hq
           have h3 := hdone _ hq
           exact absurd h3 (by simp [isDoneQ]))
      · exact h1
    refine ⟨hdall, hnr, by rw [hs]; exact hsid, ?_⟩
    rcases hph with ⟨hpe, -⟩ | ⟨p, j, hpe, hperr, hj, -⟩
    · exact hpe
    · exfalso
      have hjm := List.mem_iff_getElem?.mpr ⟨j, hj⟩
      have h1 := hdall _ hjm
      cases h1

/-- Witness for C7: three concurrent first-touch callers under a concrete
interleaving all receive the single created session. -/
theorem session_single_flight_witness :
    (∀ q ∈ (runSched (fun _ => true) "s" [0, 1, 2, 0, 1, 2]
        (List.replicate 3 ReqState.start, ⟨[], [], [], 0, 0, 1000⟩)).1,
      q = ReqState.done (.ok 0)) ∧
    (runSched (fun _ => true) "s" [0, 1, 2, 0, 1, 2]
        (List.replicate 3 ReqState.start, ⟨[], [], [], 0, 0, 1000⟩)).2.nextRef = 1 :=
  have h := session_single_flight.1 (fun _ => true) "s" 3 ⟨[], [], [], 0, 0, 1000⟩
    [0, 1, 2, 0, 1, 2] (fun _ => rfl) rfl rfl rfl (by decide) (by decide) (by decide)
  ⟨h.1, h.2.1⟩

end MCP
